import Mathlib

/-!
# Farm produce chaincode (`chaincode/supply-chain-app/farm-chaincode.go`)

A shallow embedding of the smart contract: the `Produce` record, the five ledger
operations (`queryProduce`, `initLedger`, `recordProduce`, `queryAllProduce`,
`changeProduceHolder`) and the `Invoke` dispatcher, together with the library
behaviour they rely on (`strconv.ParseInt`, `strconv.Itoa`, `unicode/utf8`,
`encoding/json` for a struct of six string fields, and the world state reached
through the chaincode stub).

Go strings and byte slices are finite byte sequences, not sequences of Unicode
characters; they are embedded as lists of natural numbers (each byte below 256).
-/

namespace FarmChaincode

/-! ## Go strings -/

/-- A Go `string` or `[]byte`: a sequence of bytes. -/
abbrev GoString := List Nat

/-- The bytes of an ASCII string literal. -/
def str (s : String) : GoString := s.toList.map Char.toNat

/-! ## `strconv` -/

/-- The two errors of `strconv`: `ErrSyntax` and `ErrRange`. -/
inductive NumError
  | ErrSyntax
  | ErrRange
  deriving DecidableEq, Repr

/-- The digit loop of `strconv.ParseUint(s, 10, 64)`, `n` being the value accumulated so
far in a `uint64`: a byte that is not a decimal digit is a syntax error (letters stand for
digits of value 10 and more, which base 10 rejects; the underscore is accepted for base 0
only), and a value that leaves the 64 bits is a range error. -/
def ParseUintLoop : GoString → Nat → Except NumError Nat
  | [], n => .ok n
  | c :: rest, n =>
    if 48 ≤ c ∧ c ≤ 57 then
      let d := c - 48
      -- cutoff is the smallest number such that cutoff*base > maxUint64
      if n ≥ (2 ^ 64 - 1) / 10 + 1 then .error .ErrRange
      else
        let n10 := (n * 10) % 2 ^ 64
        let n1 := (n10 + d) % 2 ^ 64
        if n1 < n10 ∨ n1 > 2 ^ 64 - 1 then .error .ErrRange
        else ParseUintLoop rest n1
    else .error .ErrSyntax

/-- `strconv.ParseUint(s, 10, 64)`. -/
def ParseUint (s : GoString) : Except NumError Nat :=
  if s = [] then .error .ErrSyntax else ParseUintLoop s 0

/-- `strconv.ParseInt(s, 10, 64)`: an optional sign is picked off, the rest is converted
unsigned, and the range of an `int64` is checked. A range error of `ParseUint` comes with
the value `maxUint64`, which the range check of `ParseInt` then rejects. -/
def ParseInt (s : GoString) : Except NumError Int :=
  match s with
  | [] => .error .ErrSyntax
  | c :: rest =>
    let neg := c = 45
    let body := if c = 43 ∨ c = 45 then rest else s
    match ParseUint body with
    | .error .ErrSyntax => .error .ErrSyntax
    | r =>
      let un := match r with
        | .ok n => n
        | .error _ => 2 ^ 64 - 1
      if ¬ neg ∧ un ≥ 2 ^ 63 then .error .ErrRange
      else if neg ∧ un > 2 ^ 63 then .error .ErrRange
      else .ok (if neg then - (un : Int) else (un : Int))

/-- `strconv.Itoa`: the decimal text of an integer. -/
def Itoa (i : Int) : GoString :=
  match i with
  | .ofNat n => (Nat.toDigits 10 n).map Char.toNat
  | .negSucc n => 45 :: (Nat.toDigits 10 (n + 1)).map Char.toNat

/-! ## `unicode/utf8` -/

/-- `utf8.RuneError`, the replacement character U+FFFD. -/
def RuneError : Nat := 0xFFFD

/-- A continuation byte, `10xxxxxx`. -/
def isCont (b : Nat) : Prop := 0x80 ≤ b ∧ b ≤ 0xBF

instance (b : Nat) : Decidable (isCont b) := by unfold isCont; infer_instance

/-- The range `utf8` accepts for the second byte after the leading byte `b0` (its
`acceptRanges` table): it excludes overlong forms, surrogates and values above U+10FFFF. -/
def acceptLo (b0 : Nat) : Nat := if b0 = 0xE0 then 0xA0 else if b0 = 0xF0 then 0x90 else 0x80

/-- Upper end of the accepted range of the second byte. -/
def acceptHi (b0 : Nat) : Nat := if b0 = 0xED then 0x9F else if b0 = 0xF4 then 0x8F else 0xBF

/-- `utf8.DecodeRune`: the first rune of `s` and its width in bytes; `(RuneError, 0)` on
the empty input and `(RuneError, 1)` on an invalid encoding. Masks and shifts are written
as remainders and products. -/
def DecodeRune : GoString → Nat × Nat
  | [] => (RuneError, 0)
  | b0 :: t =>
    if b0 < 0x80 then (b0, 1)
    else if 0xC2 ≤ b0 ∧ b0 ≤ 0xDF then
      match t with
      | b1 :: _ =>
        if isCont b1 then ((b0 % 32) * 64 + b1 % 64, 2) else (RuneError, 1)
      | _ => (RuneError, 1)
    else if 0xE0 ≤ b0 ∧ b0 ≤ 0xEF then
      match t with
      | b1 :: b2 :: _ =>
        if acceptLo b0 ≤ b1 ∧ b1 ≤ acceptHi b0 ∧ isCont b2 then
          ((b0 % 16) * 4096 + (b1 % 64) * 64 + b2 % 64, 3)
        else (RuneError, 1)
      | _ => (RuneError, 1)
    else if 0xF0 ≤ b0 ∧ b0 ≤ 0xF4 then
      match t with
      | b1 :: b2 :: b3 :: _ =>
        if acceptLo b0 ≤ b1 ∧ b1 ≤ acceptHi b0 ∧ isCont b2 ∧ isCont b3 then
          ((b0 % 8) * 262144 + (b1 % 64) * 4096 + (b2 % 64) * 64 + b3 % 64, 4)
        else (RuneError, 1)
      | _ => (RuneError, 1)
    else (RuneError, 1)

/-- `utf8.EncodeRune` on the three-byte form. -/
def encode3 (r : Nat) : GoString := [0xE0 + r / 4096, 0x80 + (r / 64) % 64, 0x80 + r % 64]

/-- `utf8.EncodeRune`: the UTF-8 encoding of a rune; surrogates and values above
`utf8.MaxRune` are encoded as `RuneError`. -/
def EncodeRune (r : Nat) : GoString :=
  if r ≤ 0x7F then [r]
  else if r ≤ 0x7FF then [0xC0 + r / 64, 0x80 + r % 64]
  else if r > 0x10FFFF ∨ (0xD800 ≤ r ∧ r ≤ 0xDFFF) then encode3 RuneError
  else if r ≤ 0xFFFF then encode3 r
  else [0xF0 + r / 262144, 0x80 + (r / 4096) % 64, 0x80 + (r / 64) % 64, 0x80 + r % 64]

/-- The loop of `utf8.Valid`, by runes: no rune decodes to an encoding error. -/
def ValidLoop : Nat → GoString → Bool
  | 0, s => s = []
  | fuel + 1, s =>
    match s with
    | [] => true
    | b :: t =>
      if b < 0x80 then ValidLoop fuel t
      else
        let size := (DecodeRune s).2
        if size = 1 then false else ValidLoop fuel (s.drop size)

/-- `utf8.Valid`: the bytes are entirely valid UTF-8-encoded runes. -/
def Valid (s : GoString) : Bool := ValidLoop s.length s

/-! ## `encoding/json`: encoding -/

/-- The farm produce structure, with its six properties, all strings. -/
structure Produce where
  Product : GoString
  Weight : GoString
  Organic : GoString
  Location : GoString
  Timestamp : GoString
  Holder : GoString
  deriving DecidableEq, Repr

/-- The zero value `Produce{}`, all fields the empty string. -/
def zeroProduce : Produce := ⟨[], [], [], [], [], []⟩

/-- The digit `"0123456789abcdef"[n]`. -/
def hex (n : Nat) : Nat := if n < 10 then 48 + n else 87 + n

/-- The table `htmlSafeSet` of `encoding/json`: the ASCII bytes written without escaping,
all from the space on except the double quote, the backslash, and the ampersand and the
angle brackets that HTML escaping covers. -/
def htmlSafeSet (b : Nat) : Prop :=
  0x20 ≤ b ∧ b < 0x80 ∧ b ≠ 0x22 ∧ b ≠ 0x26 ∧ b ≠ 0x3C ∧ b ≠ 0x3E ∧ b ≠ 0x5C

instance (b : Nat) : Decidable (htmlSafeSet b) := by unfold htmlSafeSet; infer_instance

/-- The escape written for an ASCII byte outside `htmlSafeSet`: a backslash and the byte
itself, a letter for newline, carriage return and tab, or `u00` and two hex digits. -/
def escapeByte (b : Nat) : GoString :=
  if b = 0x5C ∨ b = 0x22 then [0x5C, b]
  else if b = 0x0A then [0x5C, 0x6E]
  else if b = 0x0D then [0x5C, 0x72]
  else if b = 0x09 then [0x5C, 0x74]
  else [0x5C, 0x75, 0x30, 0x30, hex (b / 16), hex (b % 16)]

/-- The loop of the string encoder of `encoding/json` (with HTML escaping, as
`json.Marshal` sets it), without the quotes around it: safe ASCII bytes and valid runes are
copied, an invalid byte becomes the six characters `\ufffd`, and U+2028 and U+2029 are
escaped. -/
def encodeStringLoop : Nat → GoString → GoString
  | 0, _ => []
  | fuel + 1, s =>
    match s with
    | [] => []
    | b :: t =>
      if b < 0x80 then
        (if htmlSafeSet b then [b] else escapeByte b) ++ encodeStringLoop fuel t
      else
        let c := (DecodeRune s).1
        let size := (DecodeRune s).2
        if c = RuneError ∧ size = 1 then
          str "\\ufffd" ++ encodeStringLoop fuel t
        else if c = 0x2028 ∨ c = 0x2029 then
          str "\\u202" ++ [hex (c % 16)] ++ encodeStringLoop fuel (s.drop size)
        else s.take size ++ encodeStringLoop fuel (s.drop size)

/-- The JSON text of a Go string: the encoded bytes between double quotes. -/
def encodeString (s : GoString) : GoString :=
  0x22 :: encodeStringLoop s.length s ++ [0x22]

/-- `json.Marshal` of a `Produce`: an object of the six fields under the names of their
struct tags, in the order of the struct. It never fails on strings. -/
def Marshal (p : Produce) : GoString :=
  str "\x7b\"product\":" ++ encodeString p.Product ++
  str ",\"weight\":" ++ encodeString p.Weight ++
  str ",\"organic\":" ++ encodeString p.Organic ++
  str ",\"location\":" ++ encodeString p.Location ++
  str ",\"timestamp\":" ++ encodeString p.Timestamp ++
  str ",\"holder\":" ++ encodeString p.Holder ++ str "\x7d"

/-! ## `encoding/json`: decoding -/

/-- The value of a hexadecimal digit, in either case. -/
def hexVal (c : Nat) : Option Nat :=
  if 48 ≤ c ∧ c ≤ 57 then some (c - 48)
  else if 97 ≤ c ∧ c ≤ 102 then some (c - 97 + 10)
  else if 65 ≤ c ∧ c ≤ 70 then some (c - 65 + 10)
  else none

/-- The function `getu4` of the decoder: the value of the escape `\uXXXX` that starts the
input, if one does. -/
def getu4 : GoString → Option Nat
  | c0 :: c1 :: a :: b :: c :: d :: _ =>
    if c0 = 0x5C ∧ c1 = 0x75 then
      match hexVal a, hexVal b, hexVal c, hexVal d with
      | some a, some b, some c, some d => some (((a * 16 + b) * 16 + c) * 16 + d)
      | _, _, _, _ => none
    else none
  | _ => none

/-- `utf16.DecodeRune`: the rune of a surrogate pair, U+FFFD when the pair is invalid. -/
def utf16DecodeRune (r1 r2 : Nat) : Nat :=
  if 0xD800 ≤ r1 ∧ r1 < 0xDC00 ∧ 0xDC00 ≤ r2 ∧ r2 < 0xE000 then
    (r1 - 0xD800) * 1024 + (r2 - 0xDC00) + 0x10000
  else RuneError

/-- The byte a one-letter escape stands for; the scanner accepts these eight only. -/
def unescape (e : Nat) : Option Nat :=
  if e = 0x22 ∨ e = 0x5C ∨ e = 0x2F then some e
  else if e = 0x62 then some 0x08
  else if e = 0x66 then some 0x0C
  else if e = 0x6E then some 0x0A
  else if e = 0x72 then some 0x0D
  else if e = 0x74 then some 0x09
  else none

/-- Puts `p` in front of the text a scan returned. -/
def emit (p : GoString) (r : Option (GoString × GoString)) : Option (GoString × GoString) :=
  r.map fun x => (p ++ x.1, x.2)

/-- A string literal after its opening quote: the scanner's check of the literal and
`unquote` in one pass. Returns the Go string and the input after the closing quote.
Control bytes and unknown escapes are rejected; an escape `\uXXXX` gives the UTF-8 of its
rune (a valid surrogate pair gives one rune, a lone surrogate U+FFFD); bytes from 0x80 on
are decoded as a rune and written back as UTF-8, which makes U+FFFD of an invalid byte. -/
def unquoteLoop : Nat → GoString → Option (GoString × GoString)
  | 0, _ => none
  | fuel + 1, s =>
    match s with
    | [] => none
    | c :: t =>
      if c = 0x22 then some ([], t)
      else if c = 0x5C then
        match t with
        | [] => none
        | e :: t1 =>
          if e = 0x75 then
            match getu4 s with
            | none => none
            | some rr =>
              if 0xD800 ≤ rr ∧ rr < 0xE000 then
                match getu4 (s.drop 6) with
                | some rr1 =>
                  if utf16DecodeRune rr rr1 ≠ RuneError then
                    emit (EncodeRune (utf16DecodeRune rr rr1)) (unquoteLoop fuel (s.drop 12))
                  else emit (EncodeRune RuneError) (unquoteLoop fuel (s.drop 6))
                | none => emit (EncodeRune RuneError) (unquoteLoop fuel (s.drop 6))
              else emit (EncodeRune rr) (unquoteLoop fuel (s.drop 6))
          else
            match unescape e with
            | some b => emit [b] (unquoteLoop fuel t1)
            | none => none
      else if c < 0x20 then none
      else if c < 0x80 then emit [c] (unquoteLoop fuel t)
      else emit (EncodeRune (DecodeRune s).1) (unquoteLoop fuel (s.drop (DecodeRune s).2))

/-- A string literal after its opening quote. -/
def unquote (s : GoString) : Option (GoString × GoString) := unquoteLoop s.length s

/-- Skips the white space of JSON: space, tab, carriage return, newline. -/
def skipWS : GoString → GoString
  | [] => []
  | c :: t => if c = 0x20 ∨ c = 0x09 ∨ c = 0x0D ∨ c = 0x0A then skipWS t else c :: t

/-- Skips decimal digits. -/
def skipDigits : GoString → GoString
  | [] => []
  | c :: t => if 48 ≤ c ∧ c ≤ 57 then skipDigits t else c :: t

/-- One digit or more. -/
def scanDigits : GoString → Option GoString
  | [] => none
  | c :: t => if 48 ≤ c ∧ c ≤ 57 then some (skipDigits t) else none

/-- An optional exponent: `e` or `E`, an optional sign, digits. -/
def scanExp : GoString → Option GoString
  | [] => some []
  | c :: t =>
    if c = 0x65 ∨ c = 0x45 then
      match t with
      | [] => none
      | d :: u => if d = 0x2B ∨ d = 0x2D then scanDigits u else scanDigits (d :: u)
    else some (c :: t)

/-- An optional fraction, then an optional exponent. -/
def scanFrac : GoString → Option GoString
  | [] => some []
  | c :: t =>
    if c = 0x2E then
      match scanDigits t with
      | some r => scanExp r
      | none => none
    else scanExp (c :: t)

/-- A number literal: an optional minus, `0` or a digit string without leading zero, an
optional fraction and exponent. Returns the input after the literal. -/
def scanNumber : GoString → Option GoString
  | [] => none
  | c :: t =>
    let body := if c = 0x2D then t else c :: t
    match body with
    | [] => none
    | d :: u =>
      if d = 48 then scanFrac u
      else if 49 ≤ d ∧ d ≤ 57 then scanFrac (skipDigits u)
      else none

/-- The input after the literal `lit`, when the input starts with it. -/
def dropLit : GoString → GoString → Option GoString
  | [], s => some s
  | _ :: _, [] => none
  | l :: ls, c :: t => if l = c then dropLit ls t else none

/-- What the decoder needs of a JSON value that is to fill a string field. -/
inductive JKind
  | null
  | bool
  | number
  | string (s : GoString)
  | array
  | object
  deriving DecidableEq, Repr

mutual
/-- A JSON value at the head of the input (no white space before it): its kind, the
members when it is an object (each with the kind of its value), and the input after it. -/
def parseValue : Nat → GoString → Option (JKind × List (GoString × JKind) × GoString)
  | 0, _ => none
  | fuel + 1, s =>
    match s with
    | [] => none
    | c :: t =>
      if c = 0x7B then
        match skipWS t with
        | [] => none
        | d :: u =>
          if d = 0x7D then some (.object, [], u)
          else (parseMembers fuel (d :: u)).map fun x => (.object, x.1, x.2)
      else if c = 0x5B then
        match skipWS t with
        | [] => none
        | d :: u =>
          if d = 0x5D then some (.array, [], u)
          else (parseElems fuel (d :: u)).map fun r => (.array, [], r)
      else if c = 0x22 then (unquote t).map fun x => (.string x.1, [], x.2)
      else if c = 0x74 then (dropLit (str "true") s).map fun r => (.bool, [], r)
      else if c = 0x66 then (dropLit (str "false") s).map fun r => (.bool, [], r)
      else if c = 0x6E then (dropLit (str "null") s).map fun r => (.null, [], r)
      else (scanNumber s).map fun r => (.number, [], r)
/-- The members of an object from a key on, up to the closing brace. -/
def parseMembers : Nat → GoString → Option (List (GoString × JKind) × GoString)
  | 0, _ => none
  | fuel + 1, s =>
    match s with
    | [] => none
    | c :: t =>
      if c = 0x22 then
        match unquote t with
        | none => none
        | some (key, r1) =>
          match skipWS r1 with
          | [] => none
          | c2 :: r2 =>
            if c2 = 0x3A then
              match parseValue fuel (skipWS r2) with
              | none => none
              | some (v, _, r3) =>
                match skipWS r3 with
                | [] => none
                | c3 :: r4 =>
                  if c3 = 0x2C then
                    (parseMembers fuel (skipWS r4)).map fun x => ((key, v) :: x.1, x.2)
                  else if c3 = 0x7D then some ([(key, v)], r4)
                  else none
            else none
      else none
/-- The elements of an array from a value on, up to the closing bracket. -/
def parseElems : Nat → GoString → Option GoString
  | 0, _ => none
  | fuel + 1, s =>
    match parseValue fuel s with
    | none => none
    | some (_, _, r) =>
      match skipWS r with
      | [] => none
      | c :: t =>
        if c = 0x2C then parseElems fuel (skipWS t)
        else if c = 0x5D then some t
        else none
end

/-- The errors of `json.Unmarshal`: `*json.SyntaxError` for text that is not JSON and
`*json.UnmarshalTypeError` for a value that does not fit the Go type. -/
inductive UnmarshalError
  | Syntax
  | Type
  deriving DecidableEq, Repr

/-- The byte with its case bit cleared, `b & caseMask`. -/
def caseMask (b : Nat) : Nat := b - ((b / 32) % 2) * 32

/-- The fold comparison for a name of letters without `k` and `s`. -/
def simpleLetterEqualFold : GoString → GoString → Bool
  | [], [] => true
  | b :: s, c :: t => caseMask b = caseMask c && simpleLetterEqualFold s t
  | _, _ => false

/-- The fold comparison for an ASCII name `s` with a `k` or an `s`, which the Kelvin sign
U+212A and the long s U+017F of the key `t` also match. -/
def equalFoldRight : GoString → GoString → Bool
  | [], t => t = []
  | sb :: s, t =>
    match t with
    | [] => false
    | tb :: t1 =>
      if tb < 0x80 then
        if sb ≠ tb then
          if 0x41 ≤ caseMask sb ∧ caseMask sb ≤ 0x5A then
            if caseMask sb ≠ caseMask tb then false else equalFoldRight s t1
          else false
        else equalFoldRight s t1
      else if sb = 0x73 ∨ sb = 0x53 then
        if (DecodeRune t).1 ≠ 0x17F then false else equalFoldRight s (t.drop (DecodeRune t).2)
      else if sb = 0x6B ∨ sb = 0x4B then
        if (DecodeRune t).1 ≠ 0x212A then false else equalFoldRight s (t.drop (DecodeRune t).2)
      else false

/-- The case-insensitive comparison chosen for a field name made of ASCII letters. -/
def equalFold (name key : GoString) : Bool :=
  if name.any (fun b => caseMask b = 0x4B ∨ caseMask b = 0x53) then equalFoldRight name key
  else simpleLetterEqualFold name key

/-- The names of the six fields, from the struct tags, in the order of the struct. -/
def fieldNames : List GoString :=
  [str "product", str "weight", str "organic", str "location", str "timestamp", str "holder"]

/-- The search of the decoder for the field of a key: the field whose name is the key, and
otherwise the first one whose name matches it without regard to case. -/
def findFieldLoop (key : GoString) : List GoString → Nat → Option Nat → Option Nat
  | [], _, f => f
  | name :: rest, i, f =>
    if name = key then some i
    else findFieldLoop key rest (i + 1) (if f = none ∧ equalFold name key then some i else f)

/-- The index of the field that a key of the JSON object fills, if any. -/
def findField (key : GoString) : Option Nat := findFieldLoop key fieldNames 0 none

/-- Assignment to the field of the given index. -/
def setField (v : Produce) (i : Nat) (x : GoString) : Produce :=
  match i with
  | 0 => { v with Product := x }
  | 1 => { v with Weight := x }
  | 2 => { v with Organic := x }
  | 3 => { v with Location := x }
  | 4 => { v with Timestamp := x }
  | _ => { v with Holder := x }

/-- The decoder on the members of the object, in order: a string fills the field of its
key, `null` leaves it, a value of another kind records a type error (the first one is
kept) and is skipped; members under other keys are skipped. -/
def decodeMembers : List (GoString × JKind) → Produce × Option UnmarshalError →
    Produce × Option UnmarshalError
  | [], acc => acc
  | (key, val) :: rest, (v, err) =>
    match findField key with
    | none => decodeMembers rest (v, err)
    | some i =>
      match val with
      | .string x => decodeMembers rest (setField v i x, err)
      | .null => decodeMembers rest (v, err)
      | _ => decodeMembers rest (v, if err = none then some .Type else err)

/-- `json.Unmarshal(data, &v)` for a `Produce`: the struct after the call and the error.
The whole input is checked first, and text that is not one JSON value (white space around
it apart) is a syntax error that leaves the struct as it was. An object fills the fields;
`null` changes nothing; any other value is a type error. -/
def Unmarshal (data : GoString) (v : Produce) : Produce × Option UnmarshalError :=
  match parseValue (data.length + 1) (skipWS data) with
  | none => (v, some .Syntax)
  | some (kind, members, rest) =>
    if skipWS rest = [] then
      match kind with
      | .object => decodeMembers members (v, none)
      | .null => (v, none)
      | _ => (v, some .Type)
    else (v, some .Syntax)

/-! ## The world state behind the chaincode stub -/

/-- Entries in strictly increasing order of their keys (byte-wise lexicographic). -/
def KeysAscending (l : List (GoString × GoString)) : Prop :=
  l.Pairwise fun a b => a.1 < b.1

/-- The value under a key among the entries. -/
def lookupEntry (k : GoString) : List (GoString × GoString) → Option GoString
  | [] => none
  | e :: t => if e.1 = k then some e.2 else lookupEntry k t

/-- Writes a value under a key, at the place of the key in the order. -/
def insertEntry (k v : GoString) : List (GoString × GoString) → List (GoString × GoString)
  | [] => [(k, v)]
  | e :: t =>
    if k < e.1 then (k, v) :: e :: t
    else if k = e.1 then (k, v) :: t
    else e :: insertEntry k v t

theorem mem_insertEntry (k v : GoString) (l : List (GoString × GoString))
    (x : GoString × GoString) (hx : x ∈ insertEntry k v l) : x = (k, v) ∨ x ∈ l := by
  induction l with
  | nil => simpa [insertEntry] using hx
  | cons e t ih =>
    unfold insertEntry at hx
    split_ifs at hx with h1 h2
    · simpa using hx
    · rcases List.mem_cons.1 hx with h | h
      · exact Or.inl h
      · exact Or.inr (List.mem_cons_of_mem _ h)
    · rcases List.mem_cons.1 hx with h | h
      · exact Or.inr (h ▸ List.mem_cons_self _ _)
      · rcases ih h with h | h
        · exact Or.inl h
        · exact Or.inr (List.mem_cons_of_mem _ h)

theorem insertEntry_ascending (k v : GoString) (l : List (GoString × GoString))
    (hl : KeysAscending l) : KeysAscending (insertEntry k v l) := by
  unfold KeysAscending at *
  induction l with
  | nil => simp [insertEntry]
  | cons e t ih =>
    have ht := (List.pairwise_cons.1 hl).2
    have he := (List.pairwise_cons.1 hl).1
    unfold insertEntry
    split_ifs with h1 h2
    · refine List.pairwise_cons.2 ⟨?_, hl⟩
      intro x hx
      rcases List.mem_cons.1 hx with h | h
      · simpa [h] using h1
      · exact lt_trans h1 (he x h)
    · refine List.pairwise_cons.2 ⟨?_, ht⟩
      intro x hx
      simpa [h2] using he x hx
    · refine List.pairwise_cons.2 ⟨?_, ih ht⟩
      intro x hx
      rcases mem_insertEntry k v t x hx with h | h
      · have : e.1 < k := lt_of_le_of_ne (not_lt.1 h1) (fun h => h2 h.symm)
        simpa [h] using this
      · exact he x h

/-- The world state of the ledger: a finite map from keys to values, kept as the list of
its entries in key order, the order in which a range query iterates. -/
structure Ledger where
  entries : List (GoString × GoString)
  ascending : KeysAscending entries

theorem Ledger.ext_entries {a b : Ledger} (h : a.entries = b.entries) : a = b := by
  cases a; cases b; cases h; rfl

instance : DecidableEq Ledger := fun a b =>
  decidable_of_iff (a.entries = b.entries) ⟨Ledger.ext_entries, fun h => h ▸ rfl⟩

/-- The ledger without entries. -/
def Ledger.empty : Ledger := ⟨[], List.Pairwise.nil⟩

/-- The value under a key, `none` (Go: `nil`) for a key without value. -/
def Ledger.get (st : Ledger) (key : GoString) : Option GoString := lookupEntry key st.entries

/-- The ledger with `value` under `key`. -/
def Ledger.put (st : Ledger) (key value : GoString) : Ledger :=
  ⟨insertEntry key value st.entries, insertEntry_ascending key value st.entries st.ascending⟩

/-- Whether the peer accepts the write `PutState(key, value)`; a write it refuses returns
an error and writes nothing. -/
abbrev PutOracle := GoString → GoString → Bool

/-- Whether the read `GetState(key)` reaches the ledger; a read that fails returns `nil`
and an error. -/
abbrev GetOracle := GoString → Bool

/-- `APIstub.GetState(key)`: the bytes and whether it returned an error. The bytes are the
value under the key, and `nil` when the key has no value or when the read fails. -/
def GetState (getOk : GetOracle) (st : Ledger) (key : GoString) : Option GoString × Bool :=
  if getOk key then (st.get key, false) else (none, true)

/-- `APIstub.PutState(key, value)`: whether it returned an error, and the ledger after it. -/
def PutState (putOk : PutOracle) (st : Ledger) (key value : GoString) : Bool × Ledger :=
  if putOk key value then (false, st.put key value) else (true, st)

/-- `APIstub.GetStateByRange(startKey, endKey)`: the entries whose key is in the range,
`startKey` included and `endKey` excluded, in key order. -/
def GetStateByRange (st : Ledger) (startKey endKey : GoString) : List (GoString × GoString) :=
  st.entries.filter fun e => startKey ≤ e.1 ∧ e.1 < endKey

/-! ## The smart contract -/

/-- The response of the chaincode: `shim.Success(payload)` or `shim.Error(msg)`. -/
inductive Response
  | Success (payload : Option GoString)
  | Error (msg : GoString)
  deriving DecidableEq, Repr

/-- The `queryProduce` method: takes one argument, the key of the produce in question. The
error of `GetState` is not looked at. -/
def queryProduce (getOk : GetOracle) (st : Ledger) (args : List GoString) :
    Response × Ledger :=
  if args.length ≠ 1 then
    (.Error (str "Incorrect number of arguments. Expecting 1"), st)
  else
    match (GetState getOk st (args.getD 0 [])).1 with
    | none =>
      (.Error (str "Could not locate produce, verify if the key number is correct!"), st)
    | some ProduceAsBytes => (.Success (some ProduceAsBytes), st)

/-- The first record of the initial data of `initLedger`. -/
def chicken : Produce :=
  { Product := str "Chicken", Weight := str "1400.00", Organic := str "true",
    Location := str "67.0006, -70.5476",
    Timestamp := str "Fri Jun 22 2018 11:02:01 GMT+0530 (India Standard Time)",
    Holder := str "Sakya" }

/-- The second record of the initial data. -/
def beef : Produce :=
  { Product := str "Beef", Weight := str "1000.00", Organic := str "false",
    Location := str "91.2395, -49.4594",
    Timestamp := str "Fri Jan 11 2019 12:01:01 GMT+0800 (Singapore Standard Time)",
    Holder := str "Ilya" }

/-- The third record of the initial data. -/
def pork : Produce :=
  { Product := str "Pork", Weight := str "1200.00", Organic := str "false",
    Location := str "58.0148, 59.01391",
    Timestamp := str "Fri Jan 11 2019 12:05:21 GMT+0800 (Singapore Standard Time)",
    Holder := str "Dan" }

/-- The fourth record of the initial data. -/
def salmonGeorge : Produce :=
  { Product := str "Salmon", Weight := str "1500.00", Organic := str "true",
    Location := str "-45.0945, 0.7949",
    Timestamp := str "Wed Mar 13 2019 10:05:01 GMT+0800 (Singapore Standard Time)",
    Holder := str "George" }

/-- The fifth record of the initial data. -/
def salmonJohn : Produce :=
  { Product := str "Salmon", Weight := str "2400.00", Organic := str "true",
    Location := str "-107.6043, 19.5003",
    Timestamp := str "Fri Mar 15 2019 20:00:01 GMT+0800 (Singapore Standard Time)",
    Holder := str "John" }

/-- The initial data of farm produce of `initLedger`. -/
def seedProduce : List Produce := [chicken, beef, pork, salmonGeorge, salmonJohn]

/-- The loop of `initLedger` over `produce[count:]`: each record is marshalled and put
under the key `strconv.Itoa(count+1)`; the error of `PutState` is not looked at. -/
def initLedgerLoop (putOk : PutOracle) : List Produce → Nat → Ledger → Ledger
  | [], _, st => st
  | p :: rest, count, st =>
    initLedgerLoop putOk rest (count + 1)
      (PutState putOk st (Itoa ((count : Int) + 1)) (Marshal p)).2

/-- The `initLedger` method: pre-populates the ledger with the initial data. -/
def initLedger (putOk : PutOracle) (st : Ledger) : Response × Ledger :=
  (.Success none, initLedgerLoop putOk seedProduce 0 st)

/-- The `recordProduce` method: takes 7 arguments, the key and the 6 produce attributes.
The error of `GetState` is not looked at. -/
def recordProduce (getOk : GetOracle) (putOk : PutOracle) (st : Ledger)
    (args : List GoString) : Response × Ledger :=
  if args.length ≠ 7 then
    (.Error (str "Incorrect number of arguments. Expecting 7"), st)
  else
    -- check if the first argument (key) is an integer
    match ParseInt (args.getD 0 []) with
    | .error _ =>
      (.Error (str "Failed to record into ledger for non integer ID: " ++ args.getD 0 []), st)
    | .ok _ =>
      -- check if UID already exists in the ledger
      match (GetState getOk st (args.getD 0 [])).1 with
      | some _ =>
        (.Error (str ("Produce with the same ID already exists in the ledger, " ++
          "you may want to use changeProduceHolder function")), st)
      | none =>
        let produce : Produce :=
          { Product := args.getD 1 [], Weight := args.getD 2 [], Organic := args.getD 3 [],
            Location := args.getD 4 [], Timestamp := args.getD 5 [], Holder := args.getD 6 [] }
        match PutState putOk st (args.getD 0 []) (Marshal produce) with
        | (true, st1) =>
          (.Error (str "Failed to record into ledger for produce ID: " ++ args.getD 0 []), st1)
        | (false, st1) => (.Success none, st1)

/-- The loop of `queryAllProduce` over the results of the range query: the buffer gets a
comma before every array member but the first, then the member. -/
def queryAllLoop : List (GoString × GoString) → Bool → GoString → GoString
  | [], _, buffer => buffer
  | (key, value) :: rest, bArrayMemberAlreadyWritten, buffer =>
    queryAllLoop rest true
      ((if bArrayMemberAlreadyWritten then buffer ++ str "," else buffer) ++
        str "\x7b\"Key\":" ++ str "\"" ++ key ++ str "\"" ++
        str ", \"Record\":" ++ value ++ str "\x7d")

/-- The `queryAllProduce` method: takes no arguments, returns a JSON string of the
results of the range query from `"0"` to `"999"`. -/
def queryAllProduce (st : Ledger) : Response × Ledger :=
  (.Success (some
    (queryAllLoop (GetStateByRange st (str "0") (str "999")) false (str "[") ++ str "]")), st)

/-- The `changeProduceHolder` method: takes 2 arguments, the key and the new holder. The
errors of `GetState` and of `json.Unmarshal` are not looked at. -/
def changeProduceHolder (getOk : GetOracle) (putOk : PutOracle) (st : Ledger)
    (args : List GoString) : Response × Ledger :=
  if args.length ≠ 2 then
    (.Error (str "Incorrect number of arguments. Expecting 2"), st)
  else
    match (GetState getOk st (args.getD 0 [])).1 with
    | none => (.Error (str "Could not locate produce record on ledger"), st)
    | some produceAsBytes =>
      let produce := (Unmarshal produceAsBytes zeroProduce).1
      let produce := { produce with Holder := args.getD 1 [] }
      match PutState putOk st (args.getD 0 []) (Marshal produce) with
      | (true, st1) =>
        (.Error (str "Failed to change produce holder: " ++ args.getD 0 []), st1)
      | (false, st1) => (.Success none, st1)

/-- The `Invoke` method: routes the requested function to its handler. -/
def Invoke (getOk : GetOracle) (putOk : PutOracle) (st : Ledger) (function : GoString)
    (args : List GoString) : Response × Ledger :=
  if function = str "queryProduce" then queryProduce getOk st args
  else if function = str "initLedger" then initLedger putOk st
  else if function = str "recordProduce" then recordProduce getOk putOk st args
  else if function = str "queryAllProduce" then queryAllProduce st
  else if function = str "changeProduceHolder" then changeProduceHolder getOk putOk st args
  else (.Error (str "Invalid Smart Contract function name."), st)

/-! ## Notions taken from the specification -/

/-- From the words of the specification, a well-formed integer string: an optional sign
followed by one or more decimal digits. -/
def wellFormedInt (s : GoString) : Bool :=
  match s with
  | [] => false
  | c :: rest =>
    if c = 43 ∨ c = 45 then !rest.isEmpty && rest.all (fun d => 48 ≤ d && d ≤ 57)
    else (c :: rest).all (fun d => 48 ≤ d && d ≤ 57)

/-- The number that a string of decimal digits denotes after the digits read so far, which
have the value `n`. -/
def digitsValue : GoString → Nat → Nat
  | [], n => n
  | c :: rest, n => digitsValue rest (n * 10 + (c - 48))

/-- The integer that a well-formed integer string denotes. -/
def intValue (s : GoString) : Int :=
  match s with
  | [] => 0
  | c :: rest =>
    if c = 45 then - (digitsValue rest 0 : Int)
    else if c = 43 then (digitsValue rest 0 : Int)
    else (digitsValue (c :: rest) 0 : Int)

/-- The key holds the record `R`: it has a value, which decodes without error to `R`. -/
def holdsRecord (st : Ledger) (key : GoString) (R : Produce) : Prop :=
  ∃ bytes, st.get key = some bytes ∧ Unmarshal bytes zeroProduce = (R, none)

/-- The record `R1` has the product, weight, organic, location and timestamp of `R`. -/
def sameFrame (R R1 : Produce) : Prop :=
  R1.Product = R.Product ∧ R1.Weight = R.Weight ∧ R1.Organic = R.Organic ∧
  R1.Location = R.Location ∧ R1.Timestamp = R.Timestamp

/-- The error of a wrong number of arguments, with the number expected. -/
def argCountError (n : String) : Response :=
  .Error (str "Incorrect number of arguments. Expecting " ++ str n)

/-- The error of `recordProduce` for a key that is not an integer. -/
def invalidKeyError (key : GoString) : Response :=
  .Error (str "Failed to record into ledger for non integer ID: " ++ key)

/-- The error of `recordProduce` for a key that has a value already. -/
def duplicateKeyError : Response :=
  .Error (str ("Produce with the same ID already exists in the ledger, " ++
    "you may want to use changeProduceHolder function"))

/-- The names of the five commands that `Invoke` routes. -/
def commandNames : List GoString :=
  [str "queryProduce", str "initLedger", str "recordProduce", str "queryAllProduce",
    str "changeProduceHolder"]

/-- The ledgers reachable from the empty ledger by a finite sequence of invocations, each
with any function name, any arguments and any outcome of its reads and puts. -/
inductive Reachable : Ledger → Prop
  | empty : Reachable Ledger.empty
  | step (getOk : GetOracle) (putOk : PutOracle) (st : Ledger) (function : GoString)
      (args : List GoString) :
      Reachable st → Reachable (Invoke getOk putOk st function args).2

/-- A peer that answers every read. -/
def getAlways : GetOracle := fun _ => true

/-- A peer that fails every read. -/
def getNever : GetOracle := fun _ => false

/-- A peer that accepts every write. -/
def putAlways : PutOracle := fun _ _ => true

/-- A peer that refuses every write. -/
def putNever : PutOracle := fun _ _ => false

/-! ## Auxiliary notions for the proofs -/

/-- The shapes of a multi-byte encoding that `DecodeRune` accepts. -/
def IsRune2 (b b1 : Nat) : Prop := (0xC2 ≤ b ∧ b ≤ 0xDF) ∧ isCont b1

/-- Three bytes. -/
def IsRune3 (b b1 b2 : Nat) : Prop :=
  (0xE0 ≤ b ∧ b ≤ 0xEF) ∧ acceptLo b ≤ b1 ∧ b1 ≤ acceptHi b ∧ isCont b2

/-- Four bytes. -/
def IsRune4 (b b1 b2 b3 : Nat) : Prop :=
  (0xF0 ≤ b ∧ b ≤ 0xF4) ∧ acceptLo b ≤ b1 ∧ b1 ≤ acceptHi b ∧ isCont b2 ∧ isCont b3

/-- Valid UTF-8, rune by rune: a sequence of ASCII bytes and of the multi-byte encodings
that `DecodeRune` accepts. -/
inductive WellFormedUTF8 : GoString → Prop
  | nil : WellFormedUTF8 []
  | ascii (b : Nat) (t : GoString) : b < 0x80 → WellFormedUTF8 t → WellFormedUTF8 (b :: t)
  | two (b b1 : Nat) (t : GoString) : IsRune2 b b1 → WellFormedUTF8 t →
      WellFormedUTF8 (b :: b1 :: t)
  | three (b b1 b2 : Nat) (t : GoString) : IsRune3 b b1 b2 → WellFormedUTF8 t →
      WellFormedUTF8 (b :: b1 :: b2 :: t)
  | four (b b1 b2 b3 : Nat) (t : GoString) : IsRune4 b b1 b2 b3 → WellFormedUTF8 t →
      WellFormedUTF8 (b :: b1 :: b2 :: b3 :: t)

/-- A string value is valid UTF-8. -/
def GoodKind (k : JKind) : Prop := ∀ x, k = .string x → WellFormedUTF8 x

/-- The string values of the members are valid UTF-8. -/
def GoodMembers (ms : List (GoString × JKind)) : Prop := ∀ e ∈ ms, GoodKind e.2

/-- The six fields of a record are valid UTF-8. -/
def GoodProduce (p : Produce) : Prop :=
  WellFormedUTF8 p.Product ∧ WellFormedUTF8 p.Weight ∧ WellFormedUTF8 p.Organic ∧
  WellFormedUTF8 p.Location ∧ WellFormedUTF8 p.Timestamp ∧ WellFormedUTF8 p.Holder

/-- The Go string that a string comes back as after encoding and decoding: every byte
that is not part of a valid UTF-8 encoding is replaced by the encoding of U+FFFD (as
`strings.ToValidUTF8` with that replacement, byte by byte). -/
def ToValidUTF8Loop : Nat → GoString → GoString
  | 0, _ => []
  | fuel + 1, s =>
    match s with
    | [] => []
    | b :: t =>
      if b < 0x80 then b :: ToValidUTF8Loop fuel t
      else if (DecodeRune s).2 = 1 then EncodeRune RuneError ++ ToValidUTF8Loop fuel t
      else s.take (DecodeRune s).2 ++ ToValidUTF8Loop fuel (s.drop (DecodeRune s).2)

/-- The string with its invalid bytes replaced by U+FFFD. -/
def ToValidUTF8 (s : GoString) : GoString := ToValidUTF8Loop s.length s

/-- The fields of a record are valid UTF-8, but for the holder. -/
def ValidFrame (p : Produce) : Prop :=
  Valid p.Product = true ∧ Valid p.Weight = true ∧ Valid p.Organic = true ∧
  Valid p.Location = true ∧ Valid p.Timestamp = true

instance (p : Produce) : Decidable (ValidFrame p) := by unfold ValidFrame; infer_instance

/-- All six fields of a record are valid UTF-8. -/
def ValidProduce (p : Produce) : Prop := ValidFrame p ∧ Valid p.Holder = true

instance (p : Produce) : Decidable (ValidProduce p) := by unfold ValidProduce; infer_instance

/-- The record with the invalid bytes of its fields replaced by U+FFFD. -/
def Produce.toValid (p : Produce) : Produce :=
  { Product := ToValidUTF8 p.Product, Weight := ToValidUTF8 p.Weight,
    Organic := ToValidUTF8 p.Organic, Location := ToValidUTF8 p.Location,
    Timestamp := ToValidUTF8 p.Timestamp, Holder := ToValidUTF8 p.Holder }

/-- The record of the example scenario of the specification. -/
def wheat : Produce :=
  { Product := str "Wheat", Weight := str "800.00", Organic := str "true",
    Location := str "10.0,20.0", Timestamp := str "2020-01-01T00:00:00Z",
    Holder := str "Alice" }

/-- A second record for the example scenarios. -/
def rice : Produce :=
  { Product := str "Rice", Weight := str "500.00", Organic := str "false",
    Location := str "1.0,2.0", Timestamp := str "2021-01-01T00:00:00Z",
    Holder := str "Carol" }

/-- The ledger with the wheat record under key `"6"` and nothing else. -/
def wheatLedger : Ledger := Ledger.empty.put (str "6") (Marshal wheat)

/-- The writes of the loop of `initLedger` over `produce[count:]`, key and value. -/
def seedEntriesFrom : List Produce → Nat → List (GoString × GoString)
  | [], _ => []
  | p :: rest, count => (Itoa ((count : Int) + 1), Marshal p) :: seedEntriesFrom rest (count + 1)

/-- The five writes of `initLedger`: the keys `"1"` to `"5"`, each with the encoding of
its record. -/
def seedEntries : List (GoString × GoString) := seedEntriesFrom seedProduce 0

/-- The ledger after the given writes, in order. -/
def Ledger.putAll (st : Ledger) (es : List (GoString × GoString)) : Ledger :=
  es.foldl (fun s e => s.put e.1 e.2) st

/-- From the specification, an element of the aggregate payload: an object with the keys
`"Key"`, a string, and `"Record"`, the raw value. -/
def resultElement (e : GoString × GoString) : GoString :=
  str "\x7b\"Key\":\"" ++ e.1 ++ str "\", \"Record\":" ++ e.2 ++ str "\x7d"

/-- From the specification, the aggregate payload: the elements in order between
brackets, separated by single commas. -/
def resultsArray (es : List (GoString × GoString)) : GoString :=
  str "[" ++ (str ",").intercalate (es.map resultElement) ++ str "]"

/-! ## The ledger as a finite map -/

theorem lookup_insertEntry_same (k v : GoString) (l : List (GoString × GoString)) :
    lookupEntry k (insertEntry k v l) = some v := by
  induction l with
  | nil => simp [insertEntry, lookupEntry]
  | cons e t ih =>
    unfold insertEntry
    split_ifs with h1 h2
    · simp [lookupEntry]
    · simp [lookupEntry]
    · have : e.1 ≠ k := fun h => h2 h.symm
      simp [lookupEntry, this, ih]

theorem lookup_insertEntry_other (k v k1 : GoString) (l : List (GoString × GoString))
    (h : k1 ≠ k) : lookupEntry k1 (insertEntry k v l) = lookupEntry k1 l := by
  induction l with
  | nil => simp [insertEntry, lookupEntry, h.symm]
  | cons e t ih =>
    unfold insertEntry
    split_ifs with h1 h2
    · simp [lookupEntry, h.symm]
    · have : e.1 ≠ k1 := fun h3 => h (h3.symm.trans h2.symm)
      simp [lookupEntry, h.symm, this]
    · by_cases h3 : e.1 = k1
      · simp [lookupEntry, h3]
      · simp [lookupEntry, h3, ih]

theorem insertEntry_idem (k v : GoString) (l : List (GoString × GoString)) :
    insertEntry k v (insertEntry k v l) = insertEntry k v l := by
  induction l with
  | nil => simp [insertEntry]
  | cons e t ih =>
    by_cases h1 : k < e.1
    · simp [insertEntry, h1]
    · by_cases h2 : k = e.1
      · simp [insertEntry, h1, h2]
      · simp [insertEntry, h1, h2, ih]

theorem Ledger.get_put_same (st : Ledger) (k v : GoString) : (st.put k v).get k = some v :=
  lookup_insertEntry_same k v st.entries

theorem Ledger.get_put_other (st : Ledger) (k v k1 : GoString) (h : k1 ≠ k) :
    (st.put k v).get k1 = st.get k1 :=
  lookup_insertEntry_other k v k1 st.entries h

theorem Ledger.put_put_same (st : Ledger) (k v : GoString) :
    (st.put k v).put k v = st.put k v :=
  Ledger.ext_entries (insertEntry_idem k v st.entries)

/-! ## `strconv.ParseInt` accepts well-formed integers only -/

theorem ParseUintLoop_ok_digits (s : GoString) (n m : Nat)
    (h : ParseUintLoop s n = .ok m) : s.all (fun d => 48 ≤ d && d ≤ 57) = true := by
  induction s generalizing n with
  | nil => rfl
  | cons c rest ih =>
    unfold ParseUintLoop at h
    split_ifs at h with h1 h2
    simp only at h
    split_ifs at h with h3
    have := ih _ h
    simp [List.all_cons, h1.1, h1.2, this]

theorem ParseInt_ok_wellFormed (s : GoString) (v : Int) (h : ParseInt s = .ok v) :
    wellFormedInt s = true := by
  cases s with
  | nil => simp [ParseInt] at h
  | cons c rest =>
    simp only [ParseInt] at h
    split at h
    · simp at h
    · rename_i r hr
      cases hu : ParseUint (if c = 43 ∨ c = 45 then rest else c :: rest) with
      | error e =>
        cases e with
        | ErrSyntax => exact absurd hu (hr)
        | ErrRange =>
          rw [hu] at h
          by_cases hc : c = 45 <;> simp [hc] at h
      | ok n =>
        unfold ParseUint at hu
        split_ifs at hu with hc he
        · have hd := ParseUintLoop_ok_digits _ _ _ hu
          simp [wellFormedInt, hc, hd, he]
        · have hd := ParseUintLoop_ok_digits _ _ _ hu
          simpa [wellFormedInt, hc] using hd

/-! ## Round trip of a string through the encoder and the decoder -/

theorem hexVal_hex (n : Nat) (h : n < 16) : hexVal (hex n) = some n := by
  unfold hex hexVal
  split_ifs <;> (congr 1; omega)

theorem emit_some (p a r : GoString) : emit p (some (a, r)) = some (p ++ a, r) := rfl

theorem unquoteLoop_safe (f b : Nat) (X : GoString) (h : htmlSafeSet b) :
    unquoteLoop (f + 1) (b :: X) = emit [b] (unquoteLoop f X) := by
  obtain ⟨h1, h2, h3, -, -, -, h4⟩ := h
  have h5 : ¬ b < 0x20 := by omega
  simp only [unquoteLoop, h3, h4, h5, h2, if_true, if_false]

theorem unquoteLoop_escape (f b : Nat) (X : GoString) (hb : b < 0x80) (h : ¬ htmlSafeSet b) :
    unquoteLoop (f + 1) (escapeByte b ++ X) = emit [b] (unquoteLoop f X) := by
  unfold escapeByte
  split_ifs with h1 h2 h3 h4
  · rcases h1 with h1 | h1 <;> subst h1 <;> simp [unquoteLoop, unescape]
  · subst h2; simp [unquoteLoop, unescape]
  · subst h3; simp [unquoteLoop, unescape]
  · subst h4; simp [unquoteLoop, unescape]
  · have e1 : hexVal (hex (b / 16)) = some (b / 16) := hexVal_hex _ (by omega)
    have e2 : hexVal (hex (b % 16)) = some (b % 16) := hexVal_hex _ (by omega)
    have e3 : hexVal 0x30 = some 0 := by decide
    have e4 : b / 16 * 16 + b % 16 = b := by omega
    have e5 : ¬ (0xD800 ≤ b ∧ b < 0xE000) := by omega
    have e6 : EncodeRune b = [b] := by unfold EncodeRune; rw [if_pos (by omega)]
    simp [unquoteLoop, getu4, e1, e2, e3, e4, e5, e6]

theorem DecodeRune_two (b b1 : Nat) (X : GoString) (h : IsRune2 b b1) :
    DecodeRune (b :: b1 :: X) = ((b % 32) * 64 + b1 % 64, 2) := by
  obtain ⟨h1, h2⟩ := h
  have : ¬ b < 0x80 := by omega
  simp only [DecodeRune, this, h1, h2, and_self, if_true, if_false]

theorem DecodeRune_three (b b1 b2 : Nat) (X : GoString) (h : IsRune3 b b1 b2) :
    DecodeRune (b :: b1 :: b2 :: X) = ((b % 16) * 4096 + (b1 % 64) * 64 + b2 % 64, 3) := by
  obtain ⟨h1, h2, h3, h4⟩ := h
  have h5 : ¬ b < 0x80 := by omega
  have h6 : ¬ (0xC2 ≤ b ∧ b ≤ 0xDF) := by omega
  simp only [DecodeRune, h5, h6, h1, h2, h3, h4, and_self, if_true, if_false]

theorem DecodeRune_four (b b1 b2 b3 : Nat) (X : GoString) (h : IsRune4 b b1 b2 b3) :
    DecodeRune (b :: b1 :: b2 :: b3 :: X) =
      ((b % 8) * 262144 + (b1 % 64) * 4096 + (b2 % 64) * 64 + b3 % 64, 4) := by
  obtain ⟨h1, h2, h3, h4, h7⟩ := h
  have h5 : ¬ b < 0x80 := by omega
  have h6 : ¬ (0xC2 ≤ b ∧ b ≤ 0xDF) := by omega
  have h8 : ¬ (0xE0 ≤ b ∧ b ≤ 0xEF) := by omega
  simp only [DecodeRune, h5, h6, h8, h1, h2, h3, h4, h7, and_self, if_true, if_false]

theorem DecodeRune_shape (b : Nat) (t : GoString) (hb : ¬ b < 0x80)
    (h1 : (DecodeRune (b :: t)).2 ≠ 1) :
    (∃ b1 X, t = b1 :: X ∧ IsRune2 b b1) ∨
    (∃ b1 b2 X, t = b1 :: b2 :: X ∧ IsRune3 b b1 b2) ∨
    (∃ b1 b2 b3 X, t = b1 :: b2 :: b3 :: X ∧ IsRune4 b b1 b2 b3) := by
  simp only [DecodeRune, if_neg hb] at h1
  split_ifs at h1 with h2 h3 h4
  · rcases t with _ | ⟨b1, X⟩
    · simp at h1
    · simp only at h1
      split_ifs at h1 with h5
      · exact Or.inl ⟨b1, X, rfl, h2, h5⟩
      · simp at h1
  · rcases t with _ | ⟨b1, _ | ⟨b2, X⟩⟩
    · simp at h1
    · simp at h1
    · simp only at h1
      split_ifs at h1 with h5
      · exact Or.inr (Or.inl ⟨b1, b2, X, rfl, h3, h5⟩)
      · simp at h1
  · rcases t with _ | ⟨b1, _ | ⟨b2, _ | ⟨b3, X⟩⟩⟩
    · simp at h1
    · simp at h1
    · simp at h1
    · simp only at h1
      split_ifs at h1 with h5
      · exact Or.inr (Or.inr ⟨b1, b2, b3, X, rfl, h4, h5⟩)
      · simp at h1
  · simp at h1

theorem EncodeRune_two (b b1 : Nat) (h : IsRune2 b b1) :
    EncodeRune ((b % 32) * 64 + b1 % 64) = [b, b1] := by
  obtain ⟨h1, h2⟩ := h
  unfold isCont at h2
  unfold EncodeRune
  rw [if_neg (by omega), if_pos (by omega)]
  congr 1
  · omega
  · congr 1; omega

theorem EncodeRune_three (b b1 b2 : Nat) (h : IsRune3 b b1 b2) :
    EncodeRune ((b % 16) * 4096 + (b1 % 64) * 64 + b2 % 64) = [b, b1, b2] := by
  obtain ⟨h1, h2, h3, h4⟩ := h
  unfold isCont at h4
  unfold acceptLo at h2
  unfold acceptHi at h3
  unfold EncodeRune encode3
  split_ifs at h2 h3 <;>
  · rw [if_neg (by omega), if_neg (by omega), if_neg (by omega), if_pos (by omega)]
    congr 1
    · omega
    · congr 1
      · omega
      · congr 1; omega

theorem EncodeRune_four (b b1 b2 b3 : Nat) (h : IsRune4 b b1 b2 b3) :
    EncodeRune ((b % 8) * 262144 + (b1 % 64) * 4096 + (b2 % 64) * 64 + b3 % 64) =
      [b, b1, b2, b3] := by
  obtain ⟨h1, h2, h3, h4, h5⟩ := h
  unfold isCont at h4 h5
  unfold acceptLo at h2
  unfold acceptHi at h3
  unfold EncodeRune
  split_ifs at h2 h3 <;>
  · rw [if_neg (by omega), if_neg (by omega), if_neg (by omega), if_neg (by omega)]
    congr 1
    · omega
    · congr 1
      · omega
      · congr 1
        · omega
        · congr 1; omega

theorem unquoteLoop_rune (f b : Nat) (t X : GoString) (hb : ¬ b < 0x80)
    (h1 : (DecodeRune (b :: t)).2 ≠ 1) :
    unquoteLoop (f + 1) ((b :: t).take (DecodeRune (b :: t)).2 ++ X) =
      emit ((b :: t).take (DecodeRune (b :: t)).2) (unquoteLoop f X) := by
  have n1 : ¬ b = 0x22 := by omega
  have n2 : ¬ b = 0x5C := by omega
  have n3 : ¬ b < 0x20 := by omega
  rcases DecodeRune_shape b t hb h1 with ⟨b1, Y, rfl, h⟩ | ⟨b1, b2, Y, rfl, h⟩ |
    ⟨b1, b2, b3, Y, rfl, h⟩
  · rw [DecodeRune_two b b1 Y h]
    simp only [List.take_succ_cons, List.take_zero, List.cons_append, List.nil_append]
    simp only [unquoteLoop, n1, n2, n3, hb, if_false, DecodeRune_two b b1 X h,
      EncodeRune_two b b1 h, List.drop_succ_cons, List.drop_zero]
  · rw [DecodeRune_three b b1 b2 Y h]
    simp only [List.take_succ_cons, List.take_zero, List.cons_append, List.nil_append]
    simp only [unquoteLoop, n1, n2, n3, hb, if_false, DecodeRune_three b b1 b2 X h,
      EncodeRune_three b b1 b2 h, List.drop_succ_cons, List.drop_zero]
  · rw [DecodeRune_four b b1 b2 b3 Y h]
    simp only [List.take_succ_cons, List.take_zero, List.cons_append, List.nil_append]
    simp only [unquoteLoop, n1, n2, n3, hb, if_false, DecodeRune_four b b1 b2 b3 X h,
      EncodeRune_four b b1 b2 b3 h, List.drop_succ_cons, List.drop_zero]

theorem EncodeRune_DecodeRune (b : Nat) (t : GoString) (hb : ¬ b < 0x80)
    (h1 : (DecodeRune (b :: t)).2 ≠ 1) :
    EncodeRune (DecodeRune (b :: t)).1 = (b :: t).take (DecodeRune (b :: t)).2 := by
  rcases DecodeRune_shape b t hb h1 with ⟨b1, Y, rfl, h⟩ | ⟨b1, b2, Y, rfl, h⟩ |
    ⟨b1, b2, b3, Y, rfl, h⟩
  · rw [DecodeRune_two b b1 Y h]; simpa using EncodeRune_two b b1 h
  · rw [DecodeRune_three b b1 b2 Y h]; simpa using EncodeRune_three b b1 b2 h
  · rw [DecodeRune_four b b1 b2 b3 Y h]; simpa using EncodeRune_four b b1 b2 b3 h

theorem DecodeRune_size_pos (b : Nat) (t : GoString) (hb : ¬ b < 0x80)
    (h1 : (DecodeRune (b :: t)).2 ≠ 1) :
    2 ≤ (DecodeRune (b :: t)).2 ∧ (DecodeRune (b :: t)).2 ≤ (b :: t).length := by
  rcases DecodeRune_shape b t hb h1 with ⟨b1, Y, rfl, h⟩ | ⟨b1, b2, Y, rfl, h⟩ |
    ⟨b1, b2, b3, Y, rfl, h⟩
  · rw [DecodeRune_two b b1 Y h]; simp
  · rw [DecodeRune_three b b1 b2 Y h]; simp
  · rw [DecodeRune_four b b1 b2 b3 Y h]; simp

theorem unquoteLoop_u202 (f c : Nat) (X : GoString) (hc : c = 0x2028 ∨ c = 0x2029) :
    unquoteLoop (f + 1) (str "\\u202" ++ [hex (c % 16)] ++ X) =
      emit (EncodeRune c) (unquoteLoop f X) := by
  have e : str "\\u202" = [0x5C, 0x75, 0x32, 0x30, 0x32] := by decide
  rw [e]
  rcases hc with rfl | rfl <;>
    simp [unquoteLoop, getu4, hexVal, hex]

theorem unquoteLoop_ufffd (f : Nat) (X : GoString) :
    unquoteLoop (f + 1) (str "\\ufffd" ++ X) =
      emit (EncodeRune RuneError) (unquoteLoop f X) := by
  have e : str "\\ufffd" = [0x5C, 0x75, 0x66, 0x66, 0x66, 0x64] := by decide
  rw [e]
  simp [unquoteLoop, getu4, hexVal, RuneError]

theorem DecodeRune_invalid (b : Nat) (t : GoString) (hb : ¬ b < 0x80) :
    ((DecodeRune (b :: t)).1 = RuneError ∧ (DecodeRune (b :: t)).2 = 1) ↔
      (DecodeRune (b :: t)).2 = 1 := by
  constructor
  · exact fun h => h.2
  · intro h
    refine ⟨?_, h⟩
    simp only [DecodeRune, if_neg hb] at h ⊢
    split_ifs at h ⊢ with h2 h3 h4
    · rcases t with _ | ⟨b1, X⟩
      · rfl
      · simp only at h ⊢
        split_ifs at h ⊢ with h5
        · simp at h
        · rfl
    · rcases t with _ | ⟨b1, _ | ⟨b2, X⟩⟩
      · rfl
      · rfl
      · simp only at h ⊢
        split_ifs at h ⊢ with h5
        · simp at h
        · rfl
    · rcases t with _ | ⟨b1, _ | ⟨b2, _ | ⟨b3, X⟩⟩⟩
      · rfl
      · rfl
      · rfl
      · simp only at h ⊢
        split_ifs at h ⊢ with h5
        · simp at h
        · rfl
    · rfl

/-- Decoding after encoding: the string literal that the encoder writes for `s` is read
back as `s` with its invalid bytes replaced, and the input after the closing quote is
left over. -/
theorem unquoteLoop_encodeStringLoop (n : Nat) : ∀ (s rest : GoString) (f : Nat),
    s.length ≤ n → (encodeStringLoop n s).length < f →
    unquoteLoop f (encodeStringLoop n s ++ 0x22 :: rest) =
      some (ToValidUTF8Loop n s, rest) := by
  induction n with
  | zero =>
    intro s rest f hs hf
    obtain ⟨f, rfl⟩ : ∃ g, f = g + 1 := ⟨f - 1, by simp [encodeStringLoop] at hf; omega⟩
    simp [encodeStringLoop, unquoteLoop, ToValidUTF8Loop]
  | succ n ih =>
    intro s rest f hs hf
    rcases s with _ | ⟨b, t⟩
    · obtain ⟨f, rfl⟩ : ∃ g, f = g + 1 := ⟨f - 1, by simp [encodeStringLoop] at hf; omega⟩
      simp [encodeStringLoop, unquoteLoop, ToValidUTF8Loop]
    · have ht : t.length ≤ n := by simpa using hs
      by_cases hb : b < 0x80
      · simp only [encodeStringLoop, hb, if_true] at hf ⊢
        simp only [ToValidUTF8Loop, hb, if_true]
        by_cases hsafe : htmlSafeSet b
        · simp only [hsafe, if_true, List.length_append, List.length_cons, List.length_nil,
            List.cons_append, List.nil_append] at hf ⊢
          obtain ⟨f, rfl⟩ : ∃ g, f = g + 1 := ⟨f - 1, by omega⟩
          rw [unquoteLoop_safe f b _ hsafe, ih t rest f ht (by omega)]
          rfl
        · simp only [hsafe, if_false, List.length_append, List.append_assoc] at hf ⊢
          have hl : 1 ≤ (escapeByte b).length := by
            unfold escapeByte; split_ifs <;> simp
          obtain ⟨f, rfl⟩ : ∃ g, f = g + 1 := ⟨f - 1, by omega⟩
          rw [unquoteLoop_escape f b _ hb hsafe, ih t rest f ht (by omega)]
          rfl
      · simp only [encodeStringLoop, hb, if_false, DecodeRune_invalid b t hb] at hf ⊢
        simp only [ToValidUTF8Loop, hb, if_false]
        by_cases hv1 : (DecodeRune (b :: t)).2 = 1
        · simp only [hv1, if_true, List.length_append, List.append_assoc] at hf ⊢
          have hl : (str "\\ufffd").length = 6 := by decide
          obtain ⟨f, rfl⟩ : ∃ g, f = g + 1 := ⟨f - 1, by omega⟩
          rw [unquoteLoop_ufffd f _, ih t rest f ht (by omega), emit_some]
        · obtain ⟨hs1, hs2⟩ := DecodeRune_size_pos b t hb hv1
          have hd : ((b :: t).drop (DecodeRune (b :: t)).2).length ≤ n := by
            rw [List.length_drop]; simp only [List.length_cons] at hs hs2 ⊢; omega
          simp only [hv1, if_false] at hf ⊢
          by_cases hc : (DecodeRune (b :: t)).1 = 0x2028 ∨ (DecodeRune (b :: t)).1 = 0x2029
          · simp only [hc, if_true, List.length_append, List.append_assoc] at hf ⊢
            have hl : (str "\\u202").length = 5 := by decide
            obtain ⟨f, rfl⟩ : ∃ g, f = g + 1 := ⟨f - 1, by omega⟩
            rw [← List.append_assoc, ← List.append_assoc,
              List.append_assoc _ _ (0x22 :: rest)]
            rw [unquoteLoop_u202 f _ _ hc, ih _ rest f hd (by simp at hf; omega),
              EncodeRune_DecodeRune b t hb hv1, emit_some]
          · simp only [hc, if_false, List.length_append, List.append_assoc] at hf ⊢
            have hl : ((b :: t).take (DecodeRune (b :: t)).2).length =
                (DecodeRune (b :: t)).2 := by
              rw [List.length_take]; omega
            obtain ⟨f, rfl⟩ : ∃ g, f = g + 1 := ⟨f - 1, by omega⟩
            rw [unquoteLoop_rune f b t _ hb hv1, ih _ rest f hd (by omega), emit_some]

/-- Valid UTF-8 has no byte to replace. -/
theorem ToValidUTF8Loop_valid (n : Nat) : ∀ (s : GoString),
    s.length ≤ n → ValidLoop n s = true → ToValidUTF8Loop n s = s := by
  induction n with
  | zero =>
    intro s hs _
    have : s = [] := by simpa using hs
    subst this
    rfl
  | succ n ih =>
    intro s hs hv
    rcases s with _ | ⟨b, t⟩
    · rfl
    · have ht : t.length ≤ n := by simpa using hs
      by_cases hb : b < 0x80
      · simp only [ValidLoop, hb, if_true] at hv
        simp only [ToValidUTF8Loop, hb, if_true, ih t ht hv]
      · have hv1 : (DecodeRune (b :: t)).2 ≠ 1 := by
          intro h; simp [ValidLoop, hb, h] at hv
        have hv2 : ValidLoop n ((b :: t).drop (DecodeRune (b :: t)).2) = true := by
          simpa [ValidLoop, hb, hv1] using hv
        obtain ⟨hs1, hs2⟩ := DecodeRune_size_pos b t hb hv1
        have hd : ((b :: t).drop (DecodeRune (b :: t)).2).length ≤ n := by
          rw [List.length_drop]; simp only [List.length_cons] at hs hs2 ⊢; omega
        simp only [ToValidUTF8Loop, hb, hv1, if_false, ih _ hd hv2, List.take_append_drop]

theorem ToValidUTF8_valid (s : GoString) (hv : Valid s = true) : ToValidUTF8 s = s :=
  ToValidUTF8Loop_valid s.length s (le_refl _) hv

theorem unquote_encodeString (s rest : GoString) :
    unquote (encodeStringLoop s.length s ++ 0x22 :: rest) = some (ToValidUTF8 s, rest) := by
  unfold unquote
  exact unquoteLoop_encodeStringLoop s.length s rest _ (le_refl _) (by simp)

/-! ## Round trip of a record through `json.Marshal` and `json.Unmarshal` -/

theorem parseValue_string (f : Nat) (val X : GoString) :
    parseValue (f + 1) (0x22 :: (encodeStringLoop val.length val ++ 0x22 :: X)) =
      some (.string (ToValidUTF8 val), [], X) := by
  simp [parseValue, unquote_encodeString val X]

theorem parseMembers_more (f : Nat) (key val X : GoString) (hk : ToValidUTF8 key = key)
    (hkey : encodeStringLoop key.length key = key) :
    parseMembers (f + 2) (0x22 :: (key ++ 0x22 :: 0x3A :: 0x22 ::
        (encodeStringLoop val.length val ++ 0x22 :: 0x2C :: 0x22 :: X))) =
      (parseMembers (f + 1) (0x22 :: X)).map
        fun x => ((key, .string (ToValidUTF8 val)) :: x.1, x.2) := by
  have h1 := unquote_encodeString key (0x3A :: 0x22 ::
        (encodeStringLoop val.length val ++ 0x22 :: 0x2C :: 0x22 :: X))
  rw [hkey, hk] at h1
  have h2 := parseValue_string f val (0x2C :: 0x22 :: X)
  simp [parseMembers, h1, skipWS, h2]

theorem parseMembers_last (f : Nat) (key val X : GoString) (hk : ToValidUTF8 key = key)
    (hkey : encodeStringLoop key.length key = key) :
    parseMembers (f + 2) (0x22 :: (key ++ 0x22 :: 0x3A :: 0x22 ::
        (encodeStringLoop val.length val ++ 0x22 :: 0x7D :: X))) =
      some ([(key, .string (ToValidUTF8 val))], X) := by
  have h1 := unquote_encodeString key (0x3A :: 0x22 ::
        (encodeStringLoop val.length val ++ 0x22 :: 0x7D :: X))
  rw [hkey, hk] at h1
  have h2 := parseValue_string f val (0x7D :: X)
  simp [parseMembers, h1, skipWS, h2]

theorem skipWS_object (X : GoString) : skipWS (0x7B :: X) = 0x7B :: X := by
  simp [skipWS]

theorem parseValue_object (f : Nat) (X : GoString) :
    parseValue (f + 1) (0x7B :: 0x22 :: X) =
      (parseMembers f (0x22 :: X)).map fun x => (.object, x.1, x.2) := by
  simp [parseValue, skipWS]

/-- The text of `json.Marshal`, member by member. -/
theorem Marshal_eq (p : Produce) :
    Marshal p = 0x7B :: 0x22 :: (str "product" ++ 0x22 :: 0x3A :: 0x22 ::
      (encodeStringLoop p.Product.length p.Product ++ 0x22 :: 0x2C :: 0x22 ::
      (str "weight" ++ 0x22 :: 0x3A :: 0x22 ::
      (encodeStringLoop p.Weight.length p.Weight ++ 0x22 :: 0x2C :: 0x22 ::
      (str "organic" ++ 0x22 :: 0x3A :: 0x22 ::
      (encodeStringLoop p.Organic.length p.Organic ++ 0x22 :: 0x2C :: 0x22 ::
      (str "location" ++ 0x22 :: 0x3A :: 0x22 ::
      (encodeStringLoop p.Location.length p.Location ++ 0x22 :: 0x2C :: 0x22 ::
      (str "timestamp" ++ 0x22 :: 0x3A :: 0x22 ::
      (encodeStringLoop p.Timestamp.length p.Timestamp ++ 0x22 :: 0x2C :: 0x22 ::
      (str "holder" ++ 0x22 :: 0x3A :: 0x22 ::
      (encodeStringLoop p.Holder.length p.Holder ++ 0x22 :: 0x7D :: [])))))))))))) := by
  have e1 : str "\x7b\"product\":" = 0x7B :: 0x22 :: (str "product" ++ [0x22, 0x3A]) := by
    decide
  have e2 : str ",\"weight\":" = 0x2C :: 0x22 :: (str "weight" ++ [0x22, 0x3A]) := by decide
  have e3 : str ",\"organic\":" = 0x2C :: 0x22 :: (str "organic" ++ [0x22, 0x3A]) := by decide
  have e4 : str ",\"location\":" = 0x2C :: 0x22 :: (str "location" ++ [0x22, 0x3A]) := by
    decide
  have e5 : str ",\"timestamp\":" = 0x2C :: 0x22 :: (str "timestamp" ++ [0x22, 0x3A]) := by
    decide
  have e6 : str ",\"holder\":" = 0x2C :: 0x22 :: (str "holder" ++ [0x22, 0x3A]) := by decide
  have e7 : str "\x7d" = [0x7D] := by decide
  unfold Marshal encodeString
  rw [e1, e2, e3, e4, e5, e6, e7]
  simp only [List.append_assoc, List.cons_append, List.nil_append]

theorem Marshal_length (p : Produce) : 7 ≤ (Marshal p).length := by
  rw [Marshal_eq]
  simp only [List.length_cons, List.length_append]
  omega

theorem parse_Marshal (p : Produce) :
    parseValue ((Marshal p).length + 1) (skipWS (Marshal p)) =
      some (.object, [(str "product", .string (ToValidUTF8 p.Product)),
        (str "weight", .string (ToValidUTF8 p.Weight)),
        (str "organic", .string (ToValidUTF8 p.Organic)),
        (str "location", .string (ToValidUTF8 p.Location)),
        (str "timestamp", .string (ToValidUTF8 p.Timestamp)),
        (str "holder", .string (ToValidUTF8 p.Holder))], []) := by
  obtain ⟨f, hf⟩ : ∃ f, (Marshal p).length = f + 7 := ⟨(Marshal p).length - 7, by
    have := Marshal_length p; omega⟩
  rw [hf, Marshal_eq, skipWS_object, parseValue_object]
  rw [parseMembers_more (f + 5) _ _ _ (by decide) (by decide),
    parseMembers_more (f + 4) _ _ _ (by decide) (by decide),
    parseMembers_more (f + 3) _ _ _ (by decide) (by decide),
    parseMembers_more (f + 2) _ _ _ (by decide) (by decide),
    parseMembers_more (f + 1) _ _ _ (by decide) (by decide),
    parseMembers_last f _ _ _ (by decide) (by decide)]
  rfl

/-- What `json.Unmarshal` makes of the text of `json.Marshal`: no error, and every field
of the target overwritten with the field of the record marshalled, its invalid bytes
replaced by U+FFFD. -/
theorem Unmarshal_Marshal (p v : Produce) : Unmarshal (Marshal p) v = (p.toValid, none) := by
  unfold Unmarshal
  rw [parse_Marshal p]
  have f0 : findField (str "product") = some 0 := by decide
  have f1 : findField (str "weight") = some 1 := by decide
  have f2 : findField (str "organic") = some 2 := by decide
  have f3 : findField (str "location") = some 3 := by decide
  have f4 : findField (str "timestamp") = some 4 := by decide
  have f5 : findField (str "holder") = some 5 := by decide
  simp [skipWS, decodeMembers, f0, f1, f2, f3, f4, f5, setField, Produce.toValid]

theorem toValid_of_valid (p : Produce) (hp : ValidProduce p) : p.toValid = p := by
  obtain ⟨⟨h1, h2, h3, h4, h5⟩, h6⟩ := hp
  simp [Produce.toValid, ToValidUTF8_valid, h1, h2, h3, h4, h5, h6]

/-! ## Reads that fail -/

theorem GetState_ok (getOk : GetOracle) (st : Ledger) (key : GoString)
    (h : getOk key = true) : (GetState getOk st key).1 = st.get key := by
  simp [GetState, h]

theorem GetState_failed (getOk : GetOracle) (st : Ledger) (key : GoString)
    (h : getOk key = false) : (GetState getOk st key).1 = none := by
  simp [GetState, h]

theorem GetState_none (getOk : GetOracle) (st : Ledger) (key : GoString)
    (h : st.get key = none) : (GetState getOk st key).1 = none := by
  unfold GetState
  split_ifs
  · exact h
  · rfl

/-- What the contract sees of a read: the value under the key, or `nil` as for a key
without value. -/
theorem GetState_cases (getOk : GetOracle) (st : Ledger) (key : GoString) :
    (GetState getOk st key).1 = none ∨
    (getOk key = true ∧ ∃ bytes, st.get key = some bytes ∧
      (GetState getOk st key).1 = some bytes) := by
  by_cases h : getOk key = true
  · cases hg : st.get key with
    | none => exact Or.inl (GetState_none getOk st key hg)
    | some bytes => exact Or.inr ⟨h, bytes, rfl, by rw [GetState_ok getOk st key h, hg]⟩
  · exact Or.inl (GetState_failed getOk st key (by simpa using h))

/-! ## Claims -/

/-- C10: with an argument list whose length is not 7, `recordProduce` fails with the
argument-count error whatever the arguments are, and so do `queryProduce` for every length
other than 1 and `changeProduceHolder` for every length other than 2; the ledger is left
as it was. -/
theorem wrong_arg_count_rejected (getOk : GetOracle) (putOk : PutOracle) (st : Ledger)
    (args7 args1 args2 : List GoString)
    (h7 : args7.length ≠ 7) (h1 : args1.length ≠ 1) (h2 : args2.length ≠ 2) :
    recordProduce getOk putOk st args7 = (argCountError "7", st) ∧
    queryProduce getOk st args1 = (argCountError "1", st) ∧
    changeProduceHolder getOk putOk st args2 = (argCountError "2", st) := by
  refine ⟨?_, ?_, ?_⟩
  · simp only [recordProduce, h7, ne_eq, not_false_eq_true, if_true]; rfl
  · simp only [queryProduce, h1, ne_eq, not_false_eq_true, if_true]; rfl
  · simp only [changeProduceHolder, h2, ne_eq, not_false_eq_true, if_true]; rfl

/-- Witness of C10: `recordProduce` with 3 arguments, `queryProduce` with none and
`changeProduceHolder` with one. -/
theorem wrong_arg_count_rejected_witness :
    [str "abc", str "Wheat", str "800.00"].length ≠ 7 ∧
    ([] : List GoString).length ≠ 1 ∧ [str "6"].length ≠ 2 ∧
    recordProduce getAlways putAlways Ledger.empty [str "abc", str "Wheat", str "800.00"] =
      (argCountError "7", Ledger.empty) ∧
    queryProduce getAlways Ledger.empty [] = (argCountError "1", Ledger.empty) ∧
    changeProduceHolder getAlways putAlways Ledger.empty [str "6"] =
      (argCountError "2", Ledger.empty) :=
  ⟨by decide, by decide, by decide,
    wrong_arg_count_rejected getAlways putAlways Ledger.empty
      [str "abc", str "Wheat", str "800.00"] [] [str "6"] (by decide) (by decide)
      (by decide)⟩

/-- C6: for a key without value in the ledger, `queryProduce` fails with its not-found
error and `changeProduceHolder` fails with its not-found error for every new holder; the
ledger is left as it was, so the failed transfer creates no record. -/
theorem missing_key_not_found (getOk : GetOracle) (putOk : PutOracle) (st : Ledger)
    (key H : GoString) (h : st.get key = none) :
    queryProduce getOk st [key] =
      (.Error (str "Could not locate produce, verify if the key number is correct!"), st) ∧
    changeProduceHolder getOk putOk st [key, H] =
      (.Error (str "Could not locate produce record on ledger"), st) := by
  have hnil := GetState_none getOk st key h
  constructor
  · simp [queryProduce, hnil]
  · simp [changeProduceHolder, hnil]

/-- Witness of C6: key `"7"` on the empty ledger. -/
theorem missing_key_not_found_witness :
    Ledger.empty.get (str "7") = none ∧
    queryProduce getAlways Ledger.empty [str "7"] =
      (.Error (str "Could not locate produce, verify if the key number is correct!"),
        Ledger.empty) ∧
    changeProduceHolder getAlways putAlways Ledger.empty [str "7", str "Bob"] =
      (.Error (str "Could not locate produce record on ledger"), Ledger.empty) :=
  ⟨rfl, missing_key_not_found getAlways putAlways Ledger.empty (str "7") (str "Bob") rfl⟩

/-- C2: with 7 arguments of which the first, the key, is not a well-formed integer string,
`recordProduce` returns the invalid-key error and writes nothing: the ledger after the call
is the ledger before it. -/
theorem non_integer_key_rejected (getOk : GetOracle) (putOk : PutOracle) (st : Ledger)
    (args : List GoString)
    (hlen : args.length = 7) (hkey : wellFormedInt (args.getD 0 []) = false) :
    recordProduce getOk putOk st args = (invalidKeyError (args.getD 0 []), st) := by
  have herr : ∀ v, ParseInt (args.getD 0 []) ≠ .ok v := by
    intro v hv
    rw [ParseInt_ok_wellFormed _ v hv] at hkey
    exact absurd hkey (by decide)
  unfold recordProduce
  rw [if_neg (by simp [hlen])]
  cases hp : ParseInt (args.getD 0 []) with
  | error e => rfl
  | ok v => exact absurd hp (herr v)

/-- Witness of C2: the key `"6a"`. -/
theorem non_integer_key_rejected_witness :
    [str "6a", str "Wheat", str "800.00", str "true", str "10.0,20.0",
      str "2020-01-01T00:00:00Z", str "Alice"].length = 7 ∧
    wellFormedInt (List.getD [str "6a", str "Wheat", str "800.00", str "true",
      str "10.0,20.0", str "2020-01-01T00:00:00Z", str "Alice"] 0 []) = false ∧
    recordProduce getAlways putAlways Ledger.empty [str "6a", str "Wheat", str "800.00",
      str "true", str "10.0,20.0", str "2020-01-01T00:00:00Z", str "Alice"] =
      (invalidKeyError (List.getD [str "6a", str "Wheat", str "800.00", str "true",
        str "10.0,20.0", str "2020-01-01T00:00:00Z", str "Alice"] 0 []), Ledger.empty) :=
  ⟨by decide, by decide,
    non_integer_key_rejected getAlways putAlways Ledger.empty _ (by decide) (by decide)⟩

/-- C7, as amended: for every record whose six fields are valid UTF-8, decoding the bytes
produced by encoding it succeeds and returns the record, whatever the target held. -/
theorem decode_encode_valid (R v : Produce) (hR : ValidProduce R) :
    Unmarshal (Marshal R) v = (R, none) := by
  rw [Unmarshal_Marshal, toValid_of_valid R hR]

/-- Witness of C7 as amended: the wheat record. -/
theorem decode_encode_valid_witness :
    ValidProduce wheat ∧ Unmarshal (Marshal wheat) zeroProduce = (wheat, none) :=
  ⟨by decide, decode_encode_valid wheat zeroProduce (by decide)⟩

/-- C7 fails as stated: a holder of the single byte 0xFF, which is not valid UTF-8, is
encoded as the escape of U+FFFD and decoded as the three bytes of U+FFFD. -/
theorem decode_encode_counterexample :
    Unmarshal (Marshal { wheat with Holder := [0xFF] }) zeroProduce =
      ({ wheat with Holder := [0xEF, 0xBF, 0xBD] }, none) ∧
    ({ wheat with Holder := [0xEF, 0xBF, 0xBD] } : Produce) ≠ { wheat with Holder := [0xFF] } := by
  constructor
  · rw [Unmarshal_Marshal]; decide
  · decide

/-! ## The operations on a key, case by case -/

/-- `recordProduce` with an integer key for which the read returns `nil`, because the key
has no value or because the read failed: the record is put. -/
theorem recordProduce_nil (getOk : GetOracle) (putOk : PutOracle) (st : Ledger)
    (key product weight organic location timestamp holder : GoString) (n : Int)
    (hint : ParseInt key = .ok n) (hnil : (GetState getOk st key).1 = none) :
    recordProduce getOk putOk st
        [key, product, weight, organic, location, timestamp, holder] =
      if putOk key (Marshal ⟨product, weight, organic, location, timestamp, holder⟩) then
        (.Success none,
          st.put key (Marshal ⟨product, weight, organic, location, timestamp, holder⟩))
      else (.Error (str "Failed to record into ledger for produce ID: " ++ key), st) := by
  simp only [recordProduce, List.length_cons, List.length_nil, List.getD_cons_zero,
    List.getD_cons_succ, hint, hnil, PutState]
  split_ifs <;> simp_all

theorem recordProduce_fresh (getOk : GetOracle) (putOk : PutOracle) (st : Ledger)
    (key product weight organic location timestamp holder : GoString) (n : Int)
    (hint : ParseInt key = .ok n) (hnew : st.get key = none) :
    recordProduce getOk putOk st
        [key, product, weight, organic, location, timestamp, holder] =
      if putOk key (Marshal ⟨product, weight, organic, location, timestamp, holder⟩) then
        (.Success none,
          st.put key (Marshal ⟨product, weight, organic, location, timestamp, holder⟩))
      else (.Error (str "Failed to record into ledger for produce ID: " ++ key), st) :=
  recordProduce_nil getOk putOk st key _ _ _ _ _ _ n hint (GetState_none getOk st key hnew)

/-- `recordProduce` with an integer key that has a value, when the read succeeds. -/
theorem recordProduce_duplicate (getOk : GetOracle) (putOk : PutOracle) (st : Ledger)
    (args : List GoString) (n : Int) (old : GoString)
    (hlen : args.length = 7) (hint : ParseInt (args.getD 0 []) = .ok n)
    (hread : getOk (args.getD 0 []) = true) (hold : st.get (args.getD 0 []) = some old) :
    recordProduce getOk putOk st args = (duplicateKeyError, st) := by
  have hg : (GetState getOk st (args.getD 0 [])).1 = some old := by
    rw [GetState_ok getOk st _ hread, hold]
  unfold recordProduce
  rw [if_neg (by simp [hlen])]
  simp only [hint, hg]
  rfl

theorem changeProduceHolder_found (getOk : GetOracle) (putOk : PutOracle) (st : Ledger)
    (key H bytes : GoString) (hread : getOk key = true) (hget : st.get key = some bytes) :
    changeProduceHolder getOk putOk st [key, H] =
      if putOk key (Marshal { (Unmarshal bytes zeroProduce).1 with Holder := H }) then
        (.Success none,
          st.put key (Marshal { (Unmarshal bytes zeroProduce).1 with Holder := H }))
      else (.Error (str "Failed to change produce holder: " ++ key), st) := by
  have hg : (GetState getOk st key).1 = some bytes := by
    rw [GetState_ok getOk st key hread, hget]
  simp only [changeProduceHolder, List.length_cons, List.length_nil, List.getD_cons_zero,
    List.getD_cons_succ, hg, PutState, zeroProduce]
  split_ifs <;> simp_all

theorem changeProduceHolder_nil (getOk : GetOracle) (putOk : PutOracle) (st : Ledger)
    (key H : GoString) (hnil : (GetState getOk st key).1 = none) :
    changeProduceHolder getOk putOk st [key, H] =
      (.Error (str "Could not locate produce record on ledger"), st) := by
  simp [changeProduceHolder, hnil]

theorem queryProduce_found (getOk : GetOracle) (st : Ledger) (key bytes : GoString)
    (hread : getOk key = true) (hget : st.get key = some bytes) :
    queryProduce getOk st [key] = (.Success (some bytes), st) := by
  have hg : (GetState getOk st key).1 = some bytes := by
    rw [GetState_ok getOk st key hread, hget]
  simp [queryProduce, hg]

theorem queryProduce_nil (getOk : GetOracle) (st : Ledger) (key : GoString)
    (hnil : (GetState getOk st key).1 = none) :
    queryProduce getOk st [key] =
      (.Error (str "Could not locate produce, verify if the key number is correct!"),
        st) := by
  simp [queryProduce, hnil]

theorem toValid_frame (R : Produce) (H : GoString) (hR : ValidFrame R) :
    ({ R.toValid with Holder := H } : Produce) = { R with Holder := H } := by
  obtain ⟨h1, h2, h3, h4, h5⟩ := hR
  simp [Produce.toValid, ToValidUTF8_valid, h1, h2, h3, h4, h5]

/-- The ledger with the wheat record under key `"6"` is the ledger after `recordProduce`
of that record on the empty ledger. -/
theorem wheatLedger_eq :
    Invoke getAlways putAlways Ledger.empty (str "recordProduce") [str "6", str "Wheat",
      str "800.00", str "true", str "10.0,20.0", str "2020-01-01T00:00:00Z", str "Alice"] =
      (.Success none, wheatLedger) := by
  decide

theorem wheatLedger_reachable : Reachable wheatLedger := by
  have h := Reachable.step getAlways putAlways Ledger.empty (str "recordProduce")
    [str "6", str "Wheat", str "800.00", str "true", str "10.0,20.0",
      str "2020-01-01T00:00:00Z", str "Alice"] Reachable.empty
  rwa [wheatLedger_eq] at h

theorem wheatLedger_get : wheatLedger.get (str "6") = some (Marshal wheat) :=
  Ledger.get_put_same _ _ _

/-! ## Claims on records -/

/-- C1, the code at the failing input: the ledger reached by `recordProduce` of the wheat
record under key `"6"` holds that record; on it `recordProduce` with the same key and the
rice record, when the read of the key fails and the put is accepted, returns success and
leaves the rice record under the key: the record that existed is overwritten, where the
duplicate-key error was due and the ledger was to stay as it was. -/
theorem duplicate_key_overwritten_on_failed_read :
    Reachable wheatLedger ∧
    wheatLedger.get (str "6") = some (Marshal wheat) ∧
    recordProduce getNever putAlways wheatLedger [str "6", str "Rice", str "500.00",
        str "false", str "1.0,2.0", str "2021-01-01T00:00:00Z", str "Carol"] =
      (.Success none, wheatLedger.put (str "6") (Marshal rice)) ∧
    (wheatLedger.put (str "6") (Marshal rice)).get (str "6") = some (Marshal rice) ∧
    Marshal rice ≠ Marshal wheat ∧
    Response.Success none ≠ duplicateKeyError := by
  refine ⟨wheatLedger_reachable, wheatLedger_get, ?_, Ledger.get_put_same _ _ _, by decide,
    by decide⟩
  rw [recordProduce_nil getNever putAlways wheatLedger (str "6") _ _ _ _ _ _ 6 rfl
    (GetState_failed _ _ _ rfl)]
  rfl

/-- C3, as amended: for an integer key without value in the ledger and six field strings
that are valid UTF-8, when the put succeeds `recordProduce` succeeds, and `queryProduce`
of the key right after it, when its read succeeds, succeeds with a payload that decodes to
exactly the record of the six field values, in their positional order. -/
theorem record_then_query (getOk getOk1 : GetOracle) (putOk : PutOracle) (st : Ledger)
    (key product weight organic location timestamp holder : GoString) (n : Int)
    (hint : ParseInt key = .ok n) (hnew : st.get key = none)
    (hvalid : ValidProduce ⟨product, weight, organic, location, timestamp, holder⟩)
    (hput : putOk key (Marshal ⟨product, weight, organic, location, timestamp, holder⟩) = true)
    (hread : getOk1 key = true) :
    recordProduce getOk putOk st
        [key, product, weight, organic, location, timestamp, holder] =
      (.Success none,
        st.put key (Marshal ⟨product, weight, organic, location, timestamp, holder⟩)) ∧
    queryProduce getOk1
        (st.put key (Marshal ⟨product, weight, organic, location, timestamp, holder⟩))
        [key] =
      (.Success (some (Marshal ⟨product, weight, organic, location, timestamp, holder⟩)),
        st.put key (Marshal ⟨product, weight, organic, location, timestamp, holder⟩)) ∧
    Unmarshal (Marshal ⟨product, weight, organic, location, timestamp, holder⟩) zeroProduce =
      (⟨product, weight, organic, location, timestamp, holder⟩, none) := by
  refine ⟨?_, ?_, ?_⟩
  · rw [recordProduce_fresh getOk putOk st key _ _ _ _ _ _ n hint hnew, if_pos hput]
  · exact queryProduce_found _ _ _ _ hread (Ledger.get_put_same _ _ _)
  · rw [Unmarshal_Marshal, toValid_of_valid _ hvalid]

/-- Witness of C3 as amended: key `"6"` and the wheat record on the empty ledger. -/
theorem record_then_query_witness :
    ParseInt (str "6") = .ok 6 ∧ Ledger.empty.get (str "6") = none ∧
    ValidProduce ⟨str "Wheat", str "800.00", str "true", str "10.0,20.0",
      str "2020-01-01T00:00:00Z", str "Alice"⟩ ∧
    putAlways (str "6") (Marshal ⟨str "Wheat", str "800.00", str "true", str "10.0,20.0",
      str "2020-01-01T00:00:00Z", str "Alice"⟩) = true ∧
    getAlways (str "6") = true ∧
    recordProduce getAlways putAlways Ledger.empty [str "6", str "Wheat", str "800.00",
        str "true", str "10.0,20.0", str "2020-01-01T00:00:00Z", str "Alice"] =
      (.Success none, Ledger.empty.put (str "6") (Marshal wheat)) ∧
    queryProduce getAlways (Ledger.empty.put (str "6") (Marshal wheat)) [str "6"] =
      (.Success (some (Marshal wheat)), Ledger.empty.put (str "6") (Marshal wheat)) ∧
    Unmarshal (Marshal wheat) zeroProduce = (wheat, none) :=
  ⟨rfl, rfl, by decide, rfl, rfl,
    record_then_query getAlways getAlways putAlways Ledger.empty (str "6") (str "Wheat")
      (str "800.00") (str "true") (str "10.0,20.0") (str "2020-01-01T00:00:00Z")
      (str "Alice") 6 rfl rfl (by decide) rfl rfl⟩

/-- C3 fails as stated, twice. With the holder argument the single byte 0xFF,
`recordProduce` succeeds and `queryProduce` returns a payload that decodes to a record
whose holder is the three bytes of U+FFFD, not the holder given. And after `recordProduce`
of the wheat record, a `queryProduce` whose read fails does not succeed: it returns its
not-found error. -/
theorem record_then_query_counterexample :
    recordProduce getAlways putAlways Ledger.empty [str "6", str "Wheat", str "800.00",
        str "true", str "10.0,20.0", str "2020-01-01T00:00:00Z", [0xFF]] =
      (.Success none, Ledger.empty.put (str "6") (Marshal { wheat with Holder := [0xFF] })) ∧
    queryProduce getAlways
        (Ledger.empty.put (str "6") (Marshal { wheat with Holder := [0xFF] })) [str "6"] =
      (.Success (some (Marshal { wheat with Holder := [0xFF] })),
        Ledger.empty.put (str "6") (Marshal { wheat with Holder := [0xFF] })) ∧
    (Unmarshal (Marshal { wheat with Holder := [0xFF] }) zeroProduce).1.Holder =
      [0xEF, 0xBF, 0xBD] ∧
    recordProduce getAlways putAlways Ledger.empty [str "6", str "Wheat", str "800.00",
        str "true", str "10.0,20.0", str "2020-01-01T00:00:00Z", str "Alice"] =
      (.Success none, wheatLedger) ∧
    queryProduce getNever wheatLedger [str "6"] =
      (.Error (str "Could not locate produce, verify if the key number is correct!"),
        wheatLedger) := by
  refine ⟨?_, ?_, ?_, ?_, ?_⟩
  · rw [recordProduce_fresh getAlways putAlways Ledger.empty (str "6") _ _ _ _ _ _ 6 rfl rfl]
    rfl
  · exact queryProduce_found _ _ _ _ rfl (Ledger.get_put_same _ _ _)
  · rw [Unmarshal_Marshal]; decide
  · rw [recordProduce_fresh getAlways putAlways Ledger.empty (str "6") _ _ _ _ _ _ 6 rfl rfl]
    rfl
  · exact queryProduce_nil _ _ _ (GetState_failed _ _ _ rfl)

/-- C4, as amended: for a key whose stored value is the encoding of a record `R` whose
product, weight, organic, location and timestamp are valid UTF-8, and a holder string `H`,
when the read and the put succeed `changeProduceHolder` succeeds and leaves under the key
the encoding of the record equal to `R` in those five fields and with holder `H`; applying
the same transfer a second time succeeds again and yields the same ledger. -/
theorem transfer_changes_holder_only (getOk : GetOracle) (putOk : PutOracle) (st : Ledger)
    (key H : GoString) (R : Produce)
    (hget : st.get key = some (Marshal R)) (hR : ValidFrame R)
    (hread : getOk key = true)
    (hput : putOk key (Marshal { R with Holder := H }) = true) :
    changeProduceHolder getOk putOk st [key, H] =
      (.Success none, st.put key (Marshal { R with Holder := H })) ∧
    changeProduceHolder getOk putOk (st.put key (Marshal { R with Holder := H })) [key, H] =
      (.Success none, st.put key (Marshal { R with Holder := H })) := by
  constructor
  · rw [changeProduceHolder_found getOk putOk st key H _ hread hget, Unmarshal_Marshal,
      toValid_frame R H hR, if_pos hput]
  · rw [changeProduceHolder_found getOk putOk _ key H _ hread (Ledger.get_put_same _ _ _),
      Unmarshal_Marshal, toValid_frame { R with Holder := H } H hR, if_pos hput,
      Ledger.put_put_same]

/-- Witness of C4 as amended: the wheat record under key `"6"` goes to Bob. -/
theorem transfer_changes_holder_only_witness :
    wheatLedger.get (str "6") = some (Marshal wheat) ∧
    ValidFrame wheat ∧ getAlways (str "6") = true ∧
    putAlways (str "6") (Marshal { wheat with Holder := str "Bob" }) = true ∧
    changeProduceHolder getAlways putAlways wheatLedger [str "6", str "Bob"] =
      (.Success none, wheatLedger.put (str "6")
        (Marshal { wheat with Holder := str "Bob" })) ∧
    changeProduceHolder getAlways putAlways
        (wheatLedger.put (str "6") (Marshal { wheat with Holder := str "Bob" }))
        [str "6", str "Bob"] =
      (.Success none, wheatLedger.put (str "6")
        (Marshal { wheat with Holder := str "Bob" })) :=
  ⟨wheatLedger_get, by decide, rfl, rfl,
    transfer_changes_holder_only getAlways putAlways wheatLedger
      (str "6") (str "Bob") wheat wheatLedger_get (by decide) rfl rfl⟩

/-- C4 fails as stated, three times, on ledgers that `recordProduce` reaches from the
empty ledger. When the peer refuses the write, `changeProduceHolder` fails on a key that
holds the encoding of a record. When the read of the key fails, it fails with its
not-found error on such a key. And when the record under the key has the product 0xFF,
which is not valid UTF-8, the value left under the key is not the encoding of the record
with that product and the new holder: the product has become the three bytes of
U+FFFD. -/
theorem transfer_counterexample :
    wheatLedger.get (str "6") = some (Marshal wheat) ∧
    changeProduceHolder getAlways putNever wheatLedger [str "6", str "Bob"] =
      (.Error (str "Failed to change produce holder: 6"), wheatLedger) ∧
    changeProduceHolder getNever putAlways wheatLedger [str "6", str "Bob"] =
      (.Error (str "Could not locate produce record on ledger"), wheatLedger) ∧
    recordProduce getAlways putAlways Ledger.empty [str "6", [0xFF], str "800.00",
        str "true", str "10.0,20.0", str "2020-01-01T00:00:00Z", str "Alice"] =
      (.Success none,
        Ledger.empty.put (str "6") (Marshal { wheat with Product := [0xFF] })) ∧
    (changeProduceHolder getAlways putAlways
        (Ledger.empty.put (str "6") (Marshal { wheat with Product := [0xFF] }))
        [str "6", str "Bob"]).2.get (str "6") =
      some (Marshal { wheat with Product := [0xEF, 0xBF, 0xBD], Holder := str "Bob" }) ∧
    Marshal { wheat with Product := [0xEF, 0xBF, 0xBD], Holder := str "Bob" } ≠
      Marshal { wheat with Product := [0xFF], Holder := str "Bob" } := by
  refine ⟨wheatLedger_get, ?_, ?_, ?_, ?_, ?_⟩
  · rw [changeProduceHolder_found getAlways putNever _ (str "6") (str "Bob") _ rfl
      wheatLedger_get]
    rfl
  · exact changeProduceHolder_nil _ _ _ _ _ (GetState_failed _ _ _ rfl)
  · rw [recordProduce_fresh getAlways putAlways Ledger.empty (str "6") _ _ _ _ _ _ 6 rfl rfl]
    rfl
  · rw [changeProduceHolder_found getAlways putAlways _ (str "6") (str "Bob") _ rfl
      (Ledger.get_put_same _ _ _), Unmarshal_Marshal]
    simp only [putAlways, if_true]
    rw [Ledger.get_put_same]
    decide
  · decide

/-! ## The range query and the initial data -/

theorem resultElement_eq (k v : GoString) :
    resultElement (k, v) =
      str "\x7b\"Key\":" ++ str "\"" ++ k ++ str "\"" ++ str ", \"Record\":" ++ v ++
        str "\x7d" := by
  have e1 : str "\x7b\"Key\":\"" = str "\x7b\"Key\":" ++ str "\"" := by decide
  have e2 : str "\", \"Record\":" = str "\"" ++ str ", \"Record\":" := by decide
  simp only [resultElement, e1, e2, List.append_assoc]

theorem queryAllLoop_written (es : List (GoString × GoString)) : ∀ (buffer : GoString),
    queryAllLoop es true buffer =
      buffer ++ (es.map fun e => str "," ++ resultElement e).flatten := by
  induction es with
  | nil => intro buffer; simp [queryAllLoop]
  | cons e es ih =>
    intro buffer
    obtain ⟨k, v⟩ := e
    simp only [queryAllLoop, if_true, ih, List.map_cons, List.flatten_cons, resultElement_eq,
      List.append_assoc]

theorem intercalate_cons (sep x : GoString) (xs : List GoString) :
    sep.intercalate (x :: xs) = x ++ (xs.map fun y => sep ++ y).flatten := by
  induction xs generalizing x with
  | nil => simp [List.intercalate]
  | cons y ys ih =>
    have := ih y
    simp only [List.intercalate, List.intersperse, List.flatten_cons, List.map_cons,
      List.append_assoc] at this ⊢
    rw [this]

theorem queryAllLoop_eq (es : List (GoString × GoString)) :
    queryAllLoop es false (str "[") ++ str "]" = resultsArray es := by
  cases es with
  | nil => simp [queryAllLoop, resultsArray, List.intercalate]
  | cons e es =>
    obtain ⟨k, v⟩ := e
    simp only [queryAllLoop, resultsArray, List.map_cons, intercalate_cons,
      queryAllLoop_written, List.map_map, resultElement_eq, List.append_assoc]
    simp [Function.comp_def]

/-- The payload of `queryAllProduce` is the array of the results of the range query. -/
theorem queryAllProduce_eq (st : Ledger) :
    queryAllProduce st =
      (.Success (some (resultsArray (GetStateByRange st (str "0") (str "999")))), st) := by
  unfold queryAllProduce
  rw [queryAllLoop_eq]

theorem lookupEntry_mem (k v : GoString) (l : List (GoString × GoString))
    (h : lookupEntry k l = some v) : (k, v) ∈ l := by
  induction l with
  | nil => simp [lookupEntry] at h
  | cons e t ih =>
    unfold lookupEntry at h
    split_ifs at h with h1
    · have : e = (k, v) := by
        cases e; simp only [Option.some.injEq] at h; simp_all
      simp [this]
    · exact List.mem_cons_of_mem _ (ih h)

theorem mem_GetStateByRange (st : Ledger) (startKey endKey k v : GoString)
    (hget : st.get k = some v) (h1 : startKey ≤ k) (h2 : k < endKey) :
    (k, v) ∈ GetStateByRange st startKey endKey := by
  unfold GetStateByRange
  rw [List.mem_filter]
  exact ⟨lookupEntry_mem k v _ hget, by simp [h1, h2]⟩

theorem initLedgerLoop_accepted (putOk : PutOracle) : ∀ (ps : List Produce) (count : Nat)
    (st : Ledger), (∀ e ∈ seedEntriesFrom ps count, putOk e.1 e.2 = true) →
    initLedgerLoop putOk ps count st = st.putAll (seedEntriesFrom ps count) := by
  intro ps
  induction ps with
  | nil => intro count st _; rfl
  | cons p rest ih =>
    intro count st h
    have h1 : putOk (Itoa ((count : Int) + 1)) (Marshal p) = true :=
      h (_, _) (by unfold seedEntriesFrom; exact List.mem_cons_self _ _)
    have h2 : ∀ e ∈ seedEntriesFrom rest (count + 1), putOk e.1 e.2 = true :=
      fun e he => h e (by unfold seedEntriesFrom; exact List.mem_cons_of_mem _ he)
    simp only [initLedgerLoop, PutState, h1, if_true, seedEntriesFrom, Ledger.putAll,
      List.foldl_cons]
    exact ih (count + 1) _ h2

theorem seedEntries_eq : seedEntries =
    [(str "1", Marshal chicken), (str "2", Marshal beef), (str "3", Marshal pork),
      (str "4", Marshal salmonGeorge), (str "5", Marshal salmonJohn)] := rfl

theorem putAll_seedEntries_get (st : Ledger) (e : GoString × GoString)
    (he : e ∈ seedEntries) : (st.putAll seedEntries).get e.1 = some e.2 := by
  have k12 : str "1" ≠ str "2" := by decide
  have k13 : str "1" ≠ str "3" := by decide
  have k14 : str "1" ≠ str "4" := by decide
  have k15 : str "1" ≠ str "5" := by decide
  have k23 : str "2" ≠ str "3" := by decide
  have k24 : str "2" ≠ str "4" := by decide
  have k25 : str "2" ≠ str "5" := by decide
  have k34 : str "3" ≠ str "4" := by decide
  have k35 : str "3" ≠ str "5" := by decide
  have k45 : str "4" ≠ str "5" := by decide
  rw [seedEntries_eq] at he ⊢
  simp only [List.mem_cons, List.mem_singleton, List.not_mem_nil, or_false] at he
  simp only [Ledger.putAll, List.foldl_cons, List.foldl_nil]
  rcases he with rfl | rfl | rfl | rfl | rfl
  · rw [Ledger.get_put_other _ _ _ _ k15, Ledger.get_put_other _ _ _ _ k14,
      Ledger.get_put_other _ _ _ _ k13, Ledger.get_put_other _ _ _ _ k12,
      Ledger.get_put_same]
  · rw [Ledger.get_put_other _ _ _ _ k25, Ledger.get_put_other _ _ _ _ k24,
      Ledger.get_put_other _ _ _ _ k23, Ledger.get_put_same]
  · rw [Ledger.get_put_other _ _ _ _ k35, Ledger.get_put_other _ _ _ _ k34,
      Ledger.get_put_same]
  · rw [Ledger.get_put_other _ _ _ _ k45, Ledger.get_put_same]
  · rw [Ledger.get_put_same]

theorem seedEntries_in_range (e : GoString × GoString) (he : e ∈ seedEntries) :
    str "0" ≤ e.1 ∧ e.1 < str "999" := by
  rw [seedEntries_eq] at he
  simp only [List.mem_cons, List.mem_singleton, List.not_mem_nil, or_false] at he
  rcases he with rfl | rfl | rfl | rfl | rfl <;> exact ⟨by decide, by decide⟩

theorem putAll_empty_seedEntries : (Ledger.empty.putAll seedEntries).entries = seedEntries := by
  have k21 : ¬ str "2" < str "1" := by decide
  have k31 : ¬ str "3" < str "1" := by decide
  have k41 : ¬ str "4" < str "1" := by decide
  have k51 : ¬ str "5" < str "1" := by decide
  have k32 : ¬ str "3" < str "2" := by decide
  have k42 : ¬ str "4" < str "2" := by decide
  have k52 : ¬ str "5" < str "2" := by decide
  have k43 : ¬ str "4" < str "3" := by decide
  have k53 : ¬ str "5" < str "3" := by decide
  have k54 : ¬ str "5" < str "4" := by decide
  have e21 : str "2" ≠ str "1" := by decide
  have e31 : str "3" ≠ str "1" := by decide
  have e41 : str "4" ≠ str "1" := by decide
  have e51 : str "5" ≠ str "1" := by decide
  have e32 : str "3" ≠ str "2" := by decide
  have e42 : str "4" ≠ str "2" := by decide
  have e52 : str "5" ≠ str "2" := by decide
  have e43 : str "4" ≠ str "3" := by decide
  have e53 : str "5" ≠ str "3" := by decide
  have e54 : str "5" ≠ str "4" := by decide
  rw [seedEntries_eq]
  simp only [Ledger.putAll, List.foldl_cons, List.foldl_nil, Ledger.put, Ledger.empty,
    insertEntry, k21, k31, k41, k51, k32, k42, k52, k43, k53, k54, e21, e31, e41, e51, e32,
    e42, e52, e43, e53, e54, if_false]

/-! ## Claims on the range query -/

/-- C8, as amended: when the peer accepts the five writes of `initLedger`, then after
`initLedger` on any ledger the result of `queryAllProduce` is the array of the entries of
the range query, which contain, for each `i` from 1 to 5, the entry with key `"i"` whose
record is the encoding of the `i`-th record of the initial data (and decodes to it); when
the ledger was empty before, the entries are exactly these five, in the order of the keys
`"1"` to `"5"`. -/
theorem seeded_ledger_listing (putOk : PutOracle) (st : Ledger)
    (hput : ∀ e ∈ seedEntries, putOk e.1 e.2 = true) :
    initLedger putOk st = (.Success none, st.putAll seedEntries) ∧
    queryAllProduce (st.putAll seedEntries) =
      (.Success (some (resultsArray
        (GetStateByRange (st.putAll seedEntries) (str "0") (str "999")))),
        st.putAll seedEntries) ∧
    (∀ e ∈ seedEntries, e ∈ GetStateByRange (st.putAll seedEntries) (str "0") (str "999")) ∧
    seedEntries =
      [(str "1", Marshal chicken), (str "2", Marshal beef), (str "3", Marshal pork),
        (str "4", Marshal salmonGeorge), (str "5", Marshal salmonJohn)] ∧
    (∀ p ∈ seedProduce, Unmarshal (Marshal p) zeroProduce = (p, none)) ∧
    (st = Ledger.empty →
      GetStateByRange (st.putAll seedEntries) (str "0") (str "999") = seedEntries) := by
  refine ⟨?_, queryAllProduce_eq _, ?_, seedEntries_eq, ?_, ?_⟩
  · unfold initLedger
    rw [initLedgerLoop_accepted putOk seedProduce 0 st hput]
    rfl
  · intro e he
    obtain ⟨h1, h2⟩ := seedEntries_in_range e he
    exact mem_GetStateByRange _ _ _ e.1 e.2 (putAll_seedEntries_get st e he) h1 h2
  · intro p hp
    have hv : ∀ q ∈ seedProduce, ValidProduce q := by decide
    rw [Unmarshal_Marshal, toValid_of_valid p (hv p hp)]
  · rintro rfl
    unfold GetStateByRange
    rw [putAll_empty_seedEntries, List.filter_eq_self]
    intro e he
    simpa using seedEntries_in_range e he

/-- Witness of C8 as amended: a peer that accepts every write, and the empty ledger. -/
theorem seeded_ledger_listing_witness :
    (∀ e ∈ seedEntries, putAlways e.1 e.2 = true) ∧
    initLedger putAlways Ledger.empty = (.Success none, Ledger.empty.putAll seedEntries) ∧
    queryAllProduce (Ledger.empty.putAll seedEntries) =
      (.Success (some (resultsArray
        (GetStateByRange (Ledger.empty.putAll seedEntries) (str "0") (str "999")))),
        Ledger.empty.putAll seedEntries) ∧
    GetStateByRange (Ledger.empty.putAll seedEntries) (str "0") (str "999") = seedEntries :=
  ⟨fun _ _ => rfl,
    (seeded_ledger_listing putAlways Ledger.empty (fun _ _ => rfl)).1,
    (seeded_ledger_listing putAlways Ledger.empty (fun _ _ => rfl)).2.1,
    (seeded_ledger_listing putAlways Ledger.empty (fun _ _ => rfl)).2.2.2.2.2 rfl⟩

/-- C8 fails as stated: when the peer refuses the writes, `initLedger` on the empty ledger
still returns success and leaves the ledger empty, and the result of `queryAllProduce` is
the empty array, without any of the five entries. -/
theorem seeded_ledger_listing_counterexample :
    initLedger putNever Ledger.empty = (.Success none, Ledger.empty) ∧
    queryAllProduce Ledger.empty = (.Success (some (str "[]")), Ledger.empty) ∧
    GetStateByRange Ledger.empty (str "0") (str "999") = [] := by
  refine ⟨by decide, by decide, by decide⟩

/-- C9, the code at the failing input: on the empty ledger `recordProduce` with the key
`"999"` succeeds and the ledger holds the record under that key, but the result of
`queryAllProduce` is the empty array: the range query from `"0"` to `"999"` excludes its
end key, and the record is not part of the result. -/
theorem query_all_misses_key_999 :
    recordProduce getAlways putAlways Ledger.empty [str "999", str "Wheat", str "800.00",
        str "true", str "10.0,20.0", str "2020-01-01T00:00:00Z", str "Alice"] =
      (.Success none, Ledger.empty.put (str "999") (Marshal wheat)) ∧
    (Ledger.empty.put (str "999") (Marshal wheat)).get (str "999") = some (Marshal wheat) ∧
    queryAllProduce (Ledger.empty.put (str "999") (Marshal wheat)) =
      (.Success (some (str "[]")), Ledger.empty.put (str "999") (Marshal wheat)) := by
  refine ⟨?_, Ledger.get_put_same _ _ _, ?_⟩
  · rw [recordProduce_fresh getAlways putAlways Ledger.empty (str "999") _ _ _ _ _ _ 999
      rfl rfl]
    rfl
  · rw [queryAllProduce_eq]
    have : GetStateByRange (Ledger.empty.put (str "999") (Marshal wheat)) (str "0")
        (str "999") = [] := by
      decide
    rw [this]
    decide

/-! ## The dispatcher -/

theorem Invoke_queryProduce (getOk : GetOracle) (putOk : PutOracle) (st : Ledger)
    (args : List GoString) :
    Invoke getOk putOk st (str "queryProduce") args = queryProduce getOk st args := by
  unfold Invoke
  rw [if_pos rfl]

theorem Invoke_initLedger (getOk : GetOracle) (putOk : PutOracle) (st : Ledger)
    (args : List GoString) :
    Invoke getOk putOk st (str "initLedger") args = initLedger putOk st := by
  unfold Invoke
  rw [if_neg (by decide), if_pos rfl]

theorem Invoke_recordProduce (getOk : GetOracle) (putOk : PutOracle) (st : Ledger)
    (args : List GoString) :
    Invoke getOk putOk st (str "recordProduce") args = recordProduce getOk putOk st args := by
  unfold Invoke
  rw [if_neg (by decide), if_neg (by decide), if_pos rfl]

theorem Invoke_queryAllProduce (getOk : GetOracle) (putOk : PutOracle) (st : Ledger)
    (args : List GoString) :
    Invoke getOk putOk st (str "queryAllProduce") args = queryAllProduce st := by
  unfold Invoke
  rw [if_neg (by decide), if_neg (by decide), if_neg (by decide), if_pos rfl]

theorem Invoke_changeProduceHolder (getOk : GetOracle) (putOk : PutOracle) (st : Ledger)
    (args : List GoString) :
    Invoke getOk putOk st (str "changeProduceHolder") args =
      changeProduceHolder getOk putOk st args := by
  unfold Invoke
  rw [if_neg (by decide), if_neg (by decide), if_neg (by decide), if_neg (by decide),
    if_pos rfl]

theorem Invoke_unknown (getOk : GetOracle) (putOk : PutOracle) (st : Ledger)
    (function : GoString) (args : List GoString) (h : function ∉ commandNames) :
    Invoke getOk putOk st function args =
      (.Error (str "Invalid Smart Contract function name."), st) := by
  simp only [commandNames, List.mem_cons, List.mem_singleton, List.not_mem_nil, or_false,
    not_or] at h
  obtain ⟨h1, h2, h3, h4, h5⟩ := h
  unfold Invoke
  rw [if_neg h1, if_neg h2, if_neg h3, if_neg h4, if_neg h5]

/-- The handler that `Invoke` runs, by the name of the function. -/
theorem Invoke_cases (getOk : GetOracle) (putOk : PutOracle) (st : Ledger)
    (function : GoString) (args : List GoString) :
    (function = str "queryProduce" ∧
      Invoke getOk putOk st function args = queryProduce getOk st args) ∨
    (function = str "initLedger" ∧
      Invoke getOk putOk st function args = initLedger putOk st) ∨
    (function = str "recordProduce" ∧
      Invoke getOk putOk st function args = recordProduce getOk putOk st args) ∨
    (function = str "queryAllProduce" ∧
      Invoke getOk putOk st function args = queryAllProduce st) ∨
    (function = str "changeProduceHolder" ∧
      Invoke getOk putOk st function args = changeProduceHolder getOk putOk st args) ∨
    (function ∉ commandNames ∧ Invoke getOk putOk st function args =
      (.Error (str "Invalid Smart Contract function name."), st)) := by
  by_cases h1 : function = str "queryProduce"
  · exact Or.inl ⟨h1, h1 ▸ Invoke_queryProduce _ _ _ _⟩
  by_cases h2 : function = str "initLedger"
  · exact Or.inr (Or.inl ⟨h2, h2 ▸ Invoke_initLedger _ _ _ _⟩)
  by_cases h3 : function = str "recordProduce"
  · exact Or.inr (Or.inr (Or.inl ⟨h3, h3 ▸ Invoke_recordProduce _ _ _ _⟩))
  by_cases h4 : function = str "queryAllProduce"
  · exact Or.inr (Or.inr (Or.inr (Or.inl ⟨h4, h4 ▸ Invoke_queryAllProduce _ _ _ _⟩)))
  by_cases h5 : function = str "changeProduceHolder"
  · exact Or.inr (Or.inr (Or.inr (Or.inr (Or.inl
      ⟨h5, h5 ▸ Invoke_changeProduceHolder _ _ _ _⟩))))
  · have h : function ∉ commandNames := by
      simp only [commandNames, List.mem_cons, List.mem_singleton, List.not_mem_nil, or_false,
        not_or]
      exact ⟨h1, h2, h3, h4, h5⟩
    exact Or.inr (Or.inr (Or.inr (Or.inr (Or.inr ⟨h, Invoke_unknown _ _ _ _ _ h⟩))))

/-- C11: `Invoke` routes by exact match of the name. For a name that is none of the five
command names, whatever the arguments, it returns the unknown-command error and leaves the
ledger as it was; for each of the five names its result is that of the operation of that
name on the same arguments. -/
theorem invoke_routes_by_exact_name (getOk : GetOracle) (putOk : PutOracle) (st : Ledger)
    (function : GoString) (args : List GoString) (h : function ∉ commandNames) :
    Invoke getOk putOk st function args =
      (.Error (str "Invalid Smart Contract function name."), st) ∧
    Invoke getOk putOk st (str "queryProduce") args = queryProduce getOk st args ∧
    Invoke getOk putOk st (str "initLedger") args = initLedger putOk st ∧
    Invoke getOk putOk st (str "recordProduce") args = recordProduce getOk putOk st args ∧
    Invoke getOk putOk st (str "queryAllProduce") args = queryAllProduce st ∧
    Invoke getOk putOk st (str "changeProduceHolder") args =
      changeProduceHolder getOk putOk st args :=
  ⟨Invoke_unknown getOk putOk st function args h, Invoke_queryProduce getOk putOk st args,
    Invoke_initLedger getOk putOk st args, Invoke_recordProduce getOk putOk st args,
    Invoke_queryAllProduce getOk putOk st args,
    Invoke_changeProduceHolder getOk putOk st args⟩

/-- Witness of C11: the name `QueryProduce`, a case variant of a command name, with one
argument. -/
theorem invoke_routes_by_exact_name_witness :
    str "QueryProduce" ∉ commandNames ∧
    Invoke getAlways putAlways Ledger.empty (str "QueryProduce") [str "1"] =
      (.Error (str "Invalid Smart Contract function name."), Ledger.empty) ∧
    Invoke getAlways putAlways Ledger.empty (str "queryProduce") [str "1"] =
      queryProduce getAlways Ledger.empty [str "1"] :=
  ⟨by decide,
    (invoke_routes_by_exact_name getAlways putAlways Ledger.empty (str "QueryProduce")
      [str "1"] (by decide)).1,
    (invoke_routes_by_exact_name getAlways putAlways Ledger.empty (str "QueryProduce")
      [str "1"] (by decide)).2.1⟩

/-! ## The effect of each operation on the ledger -/

theorem recordProduce_cases (getOk : GetOracle) (putOk : PutOracle) (st : Ledger)
    (args : List GoString) :
    (∃ msg, recordProduce getOk putOk st args = (.Error msg, st)) ∨
    (∃ n, args.length = 7 ∧ ParseInt (args.getD 0 []) = .ok n ∧
      (GetState getOk st (args.getD 0 [])).1 = none ∧
      recordProduce getOk putOk st args = (.Success none, st.put (args.getD 0 [])
        (Marshal ⟨args.getD 1 [], args.getD 2 [], args.getD 3 [], args.getD 4 [],
          args.getD 5 [], args.getD 6 []⟩))) := by
  by_cases hlen : args.length = 7
  · have hp : (∃ e, ParseInt (args.getD 0 []) = .error e) ∨
        (∃ n, ParseInt (args.getD 0 []) = .ok n) := by
      cases ParseInt (args.getD 0 []) with
      | error e => exact Or.inl ⟨e, rfl⟩
      | ok n => exact Or.inr ⟨n, rfl⟩
    rcases hp with ⟨e, hp⟩ | ⟨n, hp⟩
    · left
      simp only [recordProduce, hlen, ne_eq, not_true_eq_false, if_false, hp]
      exact ⟨_, rfl⟩
    · rcases GetState_cases getOk st (args.getD 0 []) with hg | ⟨-, old, -, hg⟩
      · by_cases hput : putOk (args.getD 0 []) (Marshal ⟨args.getD 1 [], args.getD 2 [],
            args.getD 3 [], args.getD 4 [], args.getD 5 [], args.getD 6 []⟩) = true
        · refine Or.inr ⟨n, hlen, hp, hg, ?_⟩
          simp only [recordProduce, hlen, ne_eq, not_true_eq_false, if_false, hp, hg,
            PutState, hput, if_true]
        · left
          simp only [recordProduce, hlen, ne_eq, not_true_eq_false, if_false, hp, hg,
            PutState, hput]
          exact ⟨_, rfl⟩
      · left
        simp only [recordProduce, hlen, ne_eq, not_true_eq_false, if_false, hp, hg]
        exact ⟨_, rfl⟩
  · left
    simp only [recordProduce, hlen, ne_eq, not_false_eq_true, if_true]
    exact ⟨_, rfl⟩

theorem changeProduceHolder_cases (getOk : GetOracle) (putOk : PutOracle) (st : Ledger)
    (args : List GoString) :
    (∃ msg, changeProduceHolder getOk putOk st args = (.Error msg, st)) ∨
    (∃ bytes, args.length = 2 ∧ getOk (args.getD 0 []) = true ∧
      st.get (args.getD 0 []) = some bytes ∧
      changeProduceHolder getOk putOk st args = (.Success none, st.put (args.getD 0 [])
        (Marshal { (Unmarshal bytes zeroProduce).1 with Holder := args.getD 1 [] }))) := by
  by_cases hlen : args.length = 2
  · rcases GetState_cases getOk st (args.getD 0 []) with hg | ⟨hread, bytes, hget, hg⟩
    · left
      simp only [changeProduceHolder, hlen, ne_eq, not_true_eq_false, if_false, hg]
      exact ⟨_, rfl⟩
    · by_cases hput : putOk (args.getD 0 [])
          (Marshal { (Unmarshal bytes zeroProduce).1 with Holder := args.getD 1 [] }) = true
      · refine Or.inr ⟨bytes, hlen, hread, hget, ?_⟩
        simp only [changeProduceHolder, hlen, ne_eq, not_true_eq_false, if_false, hg,
          PutState, hput, if_true]
      · left
        simp only [changeProduceHolder, hlen, ne_eq, not_true_eq_false, if_false, hg,
          PutState, hput]
        exact ⟨_, rfl⟩
  · left
    simp only [changeProduceHolder, hlen, ne_eq, not_false_eq_true, if_true]
    exact ⟨_, rfl⟩

theorem queryProduce_unchanged (getOk : GetOracle) (st : Ledger) (args : List GoString) :
    (queryProduce getOk st args).2 = st := by
  unfold queryProduce
  split_ifs
  · rfl
  · split <;> rfl

/-- The loop of `initLedger` makes the writes that the peer accepts, in order. -/
theorem initLedgerLoop_eq (putOk : PutOracle) : ∀ (ps : List Produce) (count : Nat)
    (st : Ledger), initLedgerLoop putOk ps count st =
      st.putAll ((seedEntriesFrom ps count).filter fun e => putOk e.1 e.2) := by
  intro ps
  induction ps with
  | nil => intro count st; rfl
  | cons p rest ih =>
    intro count st
    simp only [initLedgerLoop, seedEntriesFrom, PutState]
    by_cases h : putOk (Itoa ((count : Int) + 1)) (Marshal p) = true
    · rw [if_pos h, List.filter_cons_of_pos (by simpa using h), ih]
      rfl
    · rw [if_neg h, List.filter_cons_of_neg (by simpa using h), ih]

theorem initLedger_eq (putOk : PutOracle) (st : Ledger) :
    initLedger putOk st =
      (.Success none, st.putAll (seedEntries.filter fun e => putOk e.1 e.2)) := by
  unfold initLedger seedEntries
  rw [initLedgerLoop_eq]

/-- What one invocation does to the ledger: nothing, or the write of a record under an
integer key for which the read returned `nil`, or the write of a record under a key that
has a value and was read, or some of the writes of the initial data; an error comes with
the first case only. -/
theorem Invoke_effect (getOk : GetOracle) (putOk : PutOracle) (st : Ledger)
    (function : GoString) (args : List GoString) :
    (Invoke getOk putOk st function args).2 = st ∨
    (∃ key p n, Invoke getOk putOk st function args =
        (.Success none, st.put key (Marshal p)) ∧
      ParseInt key = .ok n ∧ (GetState getOk st key).1 = none) ∨
    (∃ key p bytes, Invoke getOk putOk st function args =
        (.Success none, st.put key (Marshal p)) ∧
      getOk key = true ∧ st.get key = some bytes ∧
      p = { (Unmarshal bytes zeroProduce).1 with Holder := p.Holder }) ∨
    (∃ es, (∀ e ∈ es, e ∈ seedEntries) ∧
      Invoke getOk putOk st function args = (.Success none, st.putAll es)) := by
  rcases Invoke_cases getOk putOk st function args with ⟨-, h⟩ | ⟨-, h⟩ | ⟨-, h⟩ |
    ⟨-, h⟩ | ⟨-, h⟩ | ⟨-, h⟩
  · exact Or.inl (by rw [h, queryProduce_unchanged])
  · refine Or.inr (Or.inr (Or.inr ⟨_, ?_, h.trans (initLedger_eq putOk st)⟩))
    intro e he
    exact (List.mem_filter.1 he).1
  · rcases recordProduce_cases getOk putOk st args with ⟨msg, h1⟩ | ⟨n, -, h2, h3, h4⟩
    · exact Or.inl (by rw [h, h1])
    · exact Or.inr (Or.inl ⟨_, _, n, h.trans h4, h2, h3⟩)
  · exact Or.inl (by rw [h]; rfl)
  · rcases changeProduceHolder_cases getOk putOk st args with ⟨msg, h1⟩ |
      ⟨bytes, -, hread, h2, h3⟩
    · exact Or.inl (by rw [h, h1])
    · exact Or.inr (Or.inr (Or.inl ⟨_, _, bytes, h.trans h3, hread, h2, rfl⟩))
  · exact Or.inl (by rw [h])

theorem get_put_ne_none (st : Ledger) (k v key : GoString) (h : st.get key ≠ none) :
    (st.put k v).get key ≠ none := by
  by_cases hk : key = k
  · rw [hk, Ledger.get_put_same]; simp
  · rw [Ledger.get_put_other _ _ _ _ hk]; exact h

theorem get_putAll_ne_none (es : List (GoString × GoString)) : ∀ (st : Ledger)
    (key : GoString), st.get key ≠ none → (st.putAll es).get key ≠ none := by
  induction es with
  | nil => intro st key h; exact h
  | cons e es ih =>
    intro st key h
    exact ih (st.put e.1 e.2) key (get_put_ne_none st e.1 e.2 key h)

theorem get_putAll_other (es : List (GoString × GoString)) : ∀ (st : Ledger)
    (key : GoString), (∀ e ∈ es, key ≠ e.1) → (st.putAll es).get key = st.get key := by
  induction es with
  | nil => intro st key _; rfl
  | cons e es ih =>
    intro st key h
    have h1 : key ≠ e.1 := h e (List.mem_cons_self _ _)
    have h2 : ∀ x ∈ es, key ≠ x.1 := fun x hx => h x (List.mem_cons_of_mem _ hx)
    show ((st.put e.1 e.2).putAll es).get key = st.get key
    rw [ih (st.put e.1 e.2) key h2, Ledger.get_put_other _ _ _ _ h1]

theorem seedEntries_keys (e : GoString × GoString) (he : e ∈ seedEntries) :
    e.1 ∈ [str "1", str "2", str "3", str "4", str "5"] := by
  rw [seedEntries_eq] at he
  simp only [List.mem_cons, List.mem_singleton, List.not_mem_nil, or_false] at he
  rcases he with rfl | rfl | rfl | rfl | rfl <;> simp

/-! ## Claims on the dispatcher and on the effect of the commands -/

/-- C17: every error response leaves the ledger untouched: when `Invoke` returns an error,
whatever the command and its arguments, the ledger after the call is the ledger before
it; a put that fails writes nothing. -/
theorem error_leaves_ledger_untouched (getOk : GetOracle) (putOk : PutOracle) (st : Ledger)
    (function : GoString) (args : List GoString) (msg : GoString)
    (h : (Invoke getOk putOk st function args).1 = .Error msg) :
    (Invoke getOk putOk st function args).2 = st := by
  rcases Invoke_effect getOk putOk st function args with h1 | ⟨_, _, _, h2, -, -⟩ |
    ⟨_, _, _, h2, -, -, -⟩ | ⟨_, -, h2⟩
  · exact h1
  · rw [h2] at h; exact absurd h (by simp)
  · rw [h2] at h; exact absurd h (by simp)
  · rw [h2] at h; exact absurd h (by simp)

/-- Witness of C17: `recordProduce` of the wheat record under key `"6"` when the peer
refuses the write. -/
theorem error_leaves_ledger_untouched_witness :
    (Invoke getAlways putNever Ledger.empty (str "recordProduce") [str "6", str "Wheat",
      str "800.00", str "true", str "10.0,20.0", str "2020-01-01T00:00:00Z",
      str "Alice"]).1 =
      .Error (str "Failed to record into ledger for produce ID: 6") ∧
    (Invoke getAlways putNever Ledger.empty (str "recordProduce") [str "6", str "Wheat",
      str "800.00", str "true", str "10.0,20.0", str "2020-01-01T00:00:00Z",
      str "Alice"]).2 =
      Ledger.empty :=
  ⟨by decide,
    error_leaves_ledger_untouched getAlways putNever Ledger.empty (str "recordProduce") _
      (str "Failed to record into ledger for produce ID: 6") (by decide)⟩

/-- C12: a key is never deleted: whatever the ledger, the command and the arguments, a
key that has a value before `Invoke` has a value after it. -/
theorem key_never_deleted (getOk : GetOracle) (putOk : PutOracle) (st : Ledger)
    (function : GoString) (args : List GoString) (key : GoString) (h : st.get key ≠ none) :
    (Invoke getOk putOk st function args).2.get key ≠ none := by
  rcases Invoke_effect getOk putOk st function args with h1 | ⟨_, _, _, h2, -, -⟩ |
    ⟨_, _, _, h2, -, -, -⟩ | ⟨es, -, h2⟩
  · rw [h1]; exact h
  · rw [h2]; exact get_put_ne_none _ _ _ _ h
  · rw [h2]; exact get_put_ne_none _ _ _ _ h
  · rw [h2]; exact get_putAll_ne_none es st key h

/-- Witness of C12: the key `"6"` holding the wheat record, through `initLedger`. -/
theorem key_never_deleted_witness :
    (Ledger.empty.put (str "6") (Marshal wheat)).get (str "6") ≠ none ∧
    (Invoke getAlways putAlways (Ledger.empty.put (str "6") (Marshal wheat))
      (str "initLedger") []).2.get (str "6") ≠ none :=
  ⟨by rw [Ledger.get_put_same]; simp,
    key_never_deleted getAlways putAlways (Ledger.empty.put (str "6") (Marshal wheat))
      (str "initLedger") [] (str "6") (by rw [Ledger.get_put_same]; simp)⟩

/-- C20: each command writes only the keys it addresses: `queryProduce` and
`queryAllProduce` leave the whole ledger as it was, `recordProduce` and
`changeProduceHolder` leave the value of every key other than their first argument as it
was, and `initLedger` leaves the value of every key other than `"1"` to `"5"` as it
was. -/
theorem commands_write_only_their_keys (getOk : GetOracle) (putOk : PutOracle) (st : Ledger)
    (args : List GoString) :
    (queryProduce getOk st args).2 = st ∧ (queryAllProduce st).2 = st ∧
    (∀ key, key ≠ args.getD 0 [] →
      (recordProduce getOk putOk st args).2.get key = st.get key) ∧
    (∀ key, key ≠ args.getD 0 [] →
      (changeProduceHolder getOk putOk st args).2.get key = st.get key) ∧
    (∀ key, key ∉ [str "1", str "2", str "3", str "4", str "5"] →
      (initLedger putOk st).2.get key = st.get key) := by
  refine ⟨queryProduce_unchanged getOk st args, rfl, ?_, ?_, ?_⟩
  · intro key hkey
    rcases recordProduce_cases getOk putOk st args with ⟨msg, h1⟩ | ⟨n, -, -, -, h2⟩
    · rw [h1]
    · rw [h2]; exact Ledger.get_put_other _ _ _ _ hkey
  · intro key hkey
    rcases changeProduceHolder_cases getOk putOk st args with ⟨msg, h1⟩ |
      ⟨bytes, -, -, -, h2⟩
    · rw [h1]
    · rw [h2]; exact Ledger.get_put_other _ _ _ _ hkey
  · intro key hseed
    rw [initLedger_eq]
    apply get_putAll_other
    intro e he hk
    exact hseed (hk ▸ seedEntries_keys e (List.mem_filter.1 he).1)

/-- Witness of C20: the key `"6"` holding the wheat record, while `changeProduceHolder`
addresses the key `"7"`, which holds the rice record, and `initLedger` the keys of the
initial data. -/
theorem commands_write_only_their_keys_witness :
    str "6" ≠ List.getD [str "7", str "Bob"] 0 [] ∧
    str "6" ∉ [str "1", str "2", str "3", str "4", str "5"] ∧
    (changeProduceHolder getAlways putAlways (wheatLedger.put (str "7") (Marshal rice))
      [str "7", str "Bob"]).2.get (str "6") =
      (wheatLedger.put (str "7") (Marshal rice)).get (str "6") ∧
    (initLedger putAlways (wheatLedger.put (str "7") (Marshal rice))).2.get (str "6") =
      (wheatLedger.put (str "7") (Marshal rice)).get (str "6") :=
  ⟨by decide, by decide,
    (commands_write_only_their_keys getAlways putAlways
      (wheatLedger.put (str "7") (Marshal rice)) [str "7", str "Bob"]).2.2.2.1
      (str "6") (by decide),
    (commands_write_only_their_keys getAlways putAlways
      (wheatLedger.put (str "7") (Marshal rice)) [str "7", str "Bob"]).2.2.2.2
      (str "6") (by decide)⟩

/-- C15: for the sequence of entries that the range query from `"0"` to `"999"` returns,
`queryAllProduce` succeeds with exactly the text of an opening bracket, the elements
`{"Key":"k", "Record":v}` of the entries in the same order, separated by single commas
and with each value as it is stored, and a closing bracket; for the empty sequence the
payload is `[]`, not an error. -/
theorem query_all_payload_format (st : Ledger) (es : List (GoString × GoString))
    (hscan : GetStateByRange st (str "0") (str "999") = es) :
    queryAllProduce st = (.Success (some (resultsArray es)), st) ∧
    resultsArray [] = str "[]" ∧
    (∀ e, resultsArray [e] = str "[" ++ resultElement e ++ str "]") ∧
    (∀ e es1, resultsArray (e :: es1) =
      str "[" ++ resultElement e ++ (es1.map fun x => str "," ++ resultElement x).flatten ++
        str "]") := by
  refine ⟨?_, by decide, ?_, ?_⟩
  · rw [queryAllProduce_eq, hscan]
  · intro e
    simp [resultsArray, List.intercalate]
  · intro e es1
    simp only [resultsArray, List.map_cons, intercalate_cons, List.map_map, List.append_assoc]
    rfl

/-- Witness of C15: the empty ledger, on which the range query returns no entry. -/
theorem query_all_payload_format_witness :
    GetStateByRange Ledger.empty (str "0") (str "999") = [] ∧
    queryAllProduce Ledger.empty = (.Success (some (str "[]")), Ledger.empty) :=
  ⟨rfl, (query_all_payload_format Ledger.empty [] rfl).1⟩

/-- C18, as amended: the dispatcher checks no arity. `initLedger` and `queryAllProduce`
are called without the argument list, so with any arguments, empty or not, `Invoke`
returns what the operation returns, which is a success in both cases. -/
theorem no_arity_check_without_arguments (getOk : GetOracle) (putOk : PutOracle) (st : Ledger)
    (args : List GoString) :
    Invoke getOk putOk st (str "initLedger") args = initLedger putOk st ∧
    (initLedger putOk st).1 = .Success none ∧
    Invoke getOk putOk st (str "queryAllProduce") args = queryAllProduce st ∧
    (queryAllProduce st).1 =
      .Success (some (resultsArray (GetStateByRange st (str "0") (str "999")))) := by
  refine ⟨Invoke_initLedger getOk putOk st args, rfl,
    Invoke_queryAllProduce getOk putOk st args, ?_⟩
  rw [queryAllProduce_eq]

/-- C18 fails as stated: with one argument, `initLedger` and `queryAllProduce` do not fail
with an argument-count error; both succeed. -/
theorem no_arity_check_counterexample :
    Invoke getAlways putAlways Ledger.empty (str "queryAllProduce") [str "unexpected"] =
      (.Success (some (str "[]")), Ledger.empty) ∧
    (Invoke getAlways putAlways Ledger.empty (str "initLedger") [str "unexpected"]).1 =
      .Success none := by
  refine ⟨?_, ?_⟩
  · rw [Invoke_queryAllProduce]; decide
  · rw [Invoke_initLedger]; rfl

/-! ## The reachable ledgers -/

theorem get_put_cases (st : Ledger) (k v key value : GoString)
    (h : (st.put k v).get key = some value) :
    (key = k ∧ value = v) ∨ st.get key = some value := by
  by_cases hk : key = k
  · left
    rw [hk, Ledger.get_put_same] at h
    exact ⟨hk, (Option.some.inj h).symm⟩
  · right
    rwa [Ledger.get_put_other _ _ _ _ hk] at h

theorem get_putAll_cases (es : List (GoString × GoString)) : ∀ (st : Ledger)
    (key value : GoString), (st.putAll es).get key = some value →
    (key, value) ∈ es ∨ st.get key = some value := by
  induction es with
  | nil => intro st key value h; exact Or.inr h
  | cons e es ih =>
    intro st key value h
    rcases ih (st.put e.1 e.2) key value h with h1 | h1
    · exact Or.inl (List.mem_cons_of_mem _ h1)
    · rcases get_put_cases st e.1 e.2 key value h1 with ⟨h2, h3⟩ | h2
      · left
        rw [h2, h3]
        exact List.mem_cons_self _ _
      · exact Or.inr h2

theorem seedEntries_wellFormed (e : GoString × GoString) (he : e ∈ seedEntries) :
    (∃ n, ParseInt e.1 = .ok n) ∧ ∃ p, e.2 = Marshal p := by
  rw [seedEntries_eq] at he
  simp only [List.mem_cons, List.mem_singleton, List.not_mem_nil, or_false] at he
  rcases he with rfl | rfl | rfl | rfl | rfl
  · exact ⟨⟨1, rfl⟩, _, rfl⟩
  · exact ⟨⟨2, rfl⟩, _, rfl⟩
  · exact ⟨⟨3, rfl⟩, _, rfl⟩
  · exact ⟨⟨4, rfl⟩, _, rfl⟩
  · exact ⟨⟨5, rfl⟩, _, rfl⟩

/-- The invariant of the reachable ledgers: integer keys, encoded records. -/
theorem Reachable_invariant (st : Ledger) (hst : Reachable st) :
    ∀ key value, st.get key = some value →
      (∃ n, ParseInt key = .ok n) ∧ ∃ p, value = Marshal p := by
  induction hst with
  | empty => intro key value h; simp [Ledger.get, Ledger.empty, lookupEntry] at h
  | step getOk putOk st function args _ ih =>
    intro key value h
    rcases Invoke_effect getOk putOk st function args with h1 | ⟨k, p, n, h2, h3, -⟩ |
      ⟨k, p, bytes, h2, -, h3, -⟩ | ⟨es, hes, h2⟩
    · rw [h1] at h; exact ih key value h
    · rw [h2] at h
      rcases get_put_cases st k _ key value h with ⟨h4, h5⟩ | h4
      · exact ⟨⟨n, h4 ▸ h3⟩, p, h5⟩
      · exact ih key value h4
    · rw [h2] at h
      rcases get_put_cases st k _ key value h with ⟨h4, h5⟩ | h4
      · exact ⟨h4 ▸ (ih k bytes h3).1, p, h5⟩
      · exact ih key value h4
    · rw [h2] at h
      rcases get_putAll_cases es st key value h with h4 | h4
      · exact seedEntries_wellFormed (key, value) (hes _ h4)
      · exact ih key value h4

/-- C19: in every ledger reachable from the empty ledger by a finite sequence of
invocations, with any arguments and reads and puts that succeed or fail, every key that
has a value parses as a base-10 signed 64-bit integer, and every value is the encoding of
a `Produce` record, which `json.Unmarshal` decodes without error: `changeProduceHolder`
meets no undecodable bytes there. -/
theorem reachable_ledger_well_formed (st : Ledger) (key value : GoString)
    (hst : Reachable st) (hget : st.get key = some value) :
    (∃ n, ParseInt key = .ok n) ∧ (∃ p, value = Marshal p) ∧
    (Unmarshal value zeroProduce).2 = none := by
  obtain ⟨h1, p, h2⟩ := Reachable_invariant st hst key value hget
  refine ⟨h1, ⟨p, h2⟩, ?_⟩
  rw [h2, Unmarshal_Marshal]

/-- Witness of C19: the ledger after `recordProduce` of the wheat record under key `"6"`
on the empty ledger. -/
theorem reachable_ledger_well_formed_witness :
    Reachable (Invoke getAlways putAlways Ledger.empty (str "recordProduce") [str "6", str "Wheat",
      str "800.00", str "true", str "10.0,20.0", str "2020-01-01T00:00:00Z",
      str "Alice"]).2 ∧
    (Invoke getAlways putAlways Ledger.empty (str "recordProduce") [str "6", str "Wheat",
      str "800.00", str "true", str "10.0,20.0", str "2020-01-01T00:00:00Z",
      str "Alice"]).2.get (str "6") = some (Marshal wheat) ∧
    (∃ n, ParseInt (str "6") = .ok n) ∧ (∃ p, Marshal wheat = Marshal p) ∧
    (Unmarshal (Marshal wheat) zeroProduce).2 = none :=
  ⟨Reachable.step _ _ _ _ _ Reachable.empty, by decide,
    reachable_ledger_well_formed
      (Invoke getAlways putAlways Ledger.empty (str "recordProduce") [str "6", str "Wheat",
        str "800.00", str "true", str "10.0,20.0", str "2020-01-01T00:00:00Z",
        str "Alice"]).2 (str "6") (Marshal wheat)
      (Reachable.step _ _ _ _ _ Reachable.empty) (by decide)⟩

/-! ## Two ledgers with the same values are the same ledger -/

theorem lookupEntry_none (k : GoString) (l : List (GoString × GoString))
    (h : ∀ x ∈ l, x.1 ≠ k) : lookupEntry k l = none := by
  induction l with
  | nil => rfl
  | cons e t ih =>
    unfold lookupEntry
    rw [if_neg (h e (List.mem_cons_self _ _))]
    exact ih fun x hx => h x (List.mem_cons_of_mem _ hx)

theorem lookupEntry_head (e : GoString × GoString) (t : List (GoString × GoString)) :
    lookupEntry e.1 (e :: t) = some e.2 := by
  simp [lookupEntry]

theorem entries_ext : ∀ (l1 l2 : List (GoString × GoString)), KeysAscending l1 →
    KeysAscending l2 → (∀ k, lookupEntry k l1 = lookupEntry k l2) → l1 = l2 := by
  intro l1
  induction l1 with
  | nil =>
    intro l2 _ _ h
    cases l2 with
    | nil => rfl
    | cons e t =>
      have := h e.1
      rw [lookupEntry_head] at this
      simp [lookupEntry] at this
  | cons e1 t1 ih =>
    intro l2 h1 h2 h
    cases l2 with
    | nil =>
      have := h e1.1
      rw [lookupEntry_head] at this
      simp [lookupEntry] at this
    | cons e2 t2 =>
      have a1 := List.pairwise_cons.1 h1
      have a2 := List.pairwise_cons.1 h2
      have hk : e1.1 = e2.1 := by
        rcases lt_trichotomy e1.1 e2.1 with hlt | heq | hgt
        · exfalso
          have := h e1.1
          rw [lookupEntry_head, lookupEntry_none e1.1 (e2 :: t2)] at this
          · simp at this
          · intro x hx
            rcases List.mem_cons.1 hx with rfl | hx
            · exact ne_of_gt hlt
            · exact ne_of_gt (lt_trans hlt (a2.1 x hx))
        · exact heq
        · exfalso
          have := h e2.1
          rw [lookupEntry_head, lookupEntry_none e2.1 (e1 :: t1)] at this
          · simp at this
          · intro x hx
            rcases List.mem_cons.1 hx with rfl | hx
            · exact ne_of_gt hgt
            · exact ne_of_gt (lt_trans hgt (a1.1 x hx))
      have hv : e1.2 = e2.2 := by
        have := h e1.1
        rw [lookupEntry_head, hk, lookupEntry_head] at this
        exact Option.some.inj this
      have he : e1 = e2 := Prod.ext hk hv
      subst he
      congr 1
      apply ih t2 a1.2 a2.2
      intro k
      by_cases hke : e1.1 = k
      · rw [← hke, lookupEntry_none e1.1 t1 fun x hx => ne_of_gt (a1.1 x hx),
          lookupEntry_none e1.1 t2 fun x hx => ne_of_gt (a2.1 x hx)]
      · have := h k
        simpa [lookupEntry, hke] using this

theorem Ledger.ext_get (a b : Ledger) (h : ∀ k, a.get k = b.get k) : a = b :=
  Ledger.ext_entries (entries_ext a.entries b.entries a.ascending b.ascending h)

theorem putAll_seedEntries_idem (st : Ledger) :
    (st.putAll seedEntries).putAll seedEntries = st.putAll seedEntries := by
  apply Ledger.ext_get
  intro k
  by_cases hk : ∃ e ∈ seedEntries, k = e.1
  · obtain ⟨e, he, rfl⟩ := hk
    rw [putAll_seedEntries_get _ e he, putAll_seedEntries_get _ e he]
  · apply get_putAll_other
    intro e he hke
    exact hk ⟨e, he, hke⟩

/-! ## Claims on the initial data -/

/-- C16, as amended: when the peer accepts the five writes of `initLedger`, then on any
ledger, also one where some of the keys `"1"` to `"5"` hold other records, `initLedger`
overwrites them: after it each key `"i"` holds the encoding of the `i`-th record of the
initial data; and a second `initLedger` right after the first leaves the ledger as the
first left it. -/
theorem init_overwrites_and_is_idempotent (putOk : PutOracle) (st : Ledger)
    (hput : ∀ e ∈ seedEntries, putOk e.1 e.2 = true) :
    (∀ e ∈ seedEntries, (initLedger putOk st).2.get e.1 = some e.2) ∧
    seedEntries =
      [(str "1", Marshal chicken), (str "2", Marshal beef), (str "3", Marshal pork),
        (str "4", Marshal salmonGeorge), (str "5", Marshal salmonJohn)] ∧
    initLedger putOk (initLedger putOk st).2 = initLedger putOk st := by
  have h1 : ∀ s, initLedger putOk s = (.Success none, s.putAll seedEntries) := by
    intro s
    unfold initLedger
    rw [initLedgerLoop_accepted putOk seedProduce 0 s hput]
    rfl
  refine ⟨?_, seedEntries_eq, ?_⟩
  · intro e he
    rw [h1]
    exact putAll_seedEntries_get st e he
  · rw [h1 st, h1, putAll_seedEntries_idem]

/-- Witness of C16 as amended: a peer that accepts every write, and a ledger where key
`"1"` holds the wheat record. -/
theorem init_overwrites_and_is_idempotent_witness :
    (∀ e ∈ seedEntries, putAlways e.1 e.2 = true) ∧
    (initLedger putAlways (Ledger.empty.put (str "1") (Marshal wheat))).2.get (str "1") =
      some (Marshal chicken) ∧
    initLedger putAlways
        (initLedger putAlways (Ledger.empty.put (str "1") (Marshal wheat))).2 =
      initLedger putAlways (Ledger.empty.put (str "1") (Marshal wheat)) :=
  ⟨fun _ _ => rfl,
    (init_overwrites_and_is_idempotent putAlways (Ledger.empty.put (str "1") (Marshal wheat))
      (fun _ _ => rfl)).1 (str "1", Marshal chicken) (by rw [seedEntries_eq]; simp),
    (init_overwrites_and_is_idempotent putAlways (Ledger.empty.put (str "1") (Marshal wheat))
      (fun _ _ => rfl)).2.2⟩

/-- C16 fails as stated: when the peer refuses the writes, `initLedger` returns success
and the key `"1"`, which held the wheat record, still holds it, not the first record of
the initial data. -/
theorem init_overwrites_counterexample :
    initLedger putNever (Ledger.empty.put (str "1") (Marshal wheat)) =
      (.Success none, Ledger.empty.put (str "1") (Marshal wheat)) ∧
    (Ledger.empty.put (str "1") (Marshal wheat)).get (str "1") = some (Marshal wheat) ∧
    Marshal wheat ≠ Marshal chicken := by
  refine ⟨?_, Ledger.get_put_same _ _ _, by decide⟩
  rw [initLedger_eq]
  rfl

/-! ## `strconv.ParseInt` accepts the well-formed integers of 64 bits -/

theorem digitsValue_le (s : GoString) : ∀ n, n ≤ digitsValue s n := by
  induction s with
  | nil => intro n; exact le_refl _
  | cons c rest ih =>
    intro n
    have := ih (n * 10 + (c - 48))
    simp only [digitsValue]
    omega

theorem ParseUintLoop_ok (s : GoString) : ∀ n,
    s.all (fun d => 48 ≤ d && d ≤ 57) = true → digitsValue s n < 2 ^ 64 →
    ParseUintLoop s n = .ok (digitsValue s n) := by
  induction s with
  | nil => intro n _ _; rfl
  | cons c rest ih =>
    intro n hd hv
    simp only [List.all_cons, Bool.and_eq_true, decide_eq_true_eq] at hd
    obtain ⟨⟨hc1, hc2⟩, hrest⟩ := hd
    simp only [digitsValue] at hv ⊢
    have hle := digitsValue_le rest (n * 10 + (c - 48))
    have h1 : ¬ n ≥ (2 ^ 64 - 1) / 10 + 1 := by omega
    have h2 : (n * 10) % 2 ^ 64 = n * 10 := Nat.mod_eq_of_lt (by omega)
    have h3 : (n * 10 + (c - 48)) % 2 ^ 64 = n * 10 + (c - 48) := Nat.mod_eq_of_lt (by omega)
    have h4 : ¬ (n * 10 + (c - 48) < n * 10 ∨ n * 10 + (c - 48) > 2 ^ 64 - 1) := by omega
    unfold ParseUintLoop
    simp only [hc1, hc2, and_self, if_true, h1, if_false, h2, h3, h4]
    exact ih _ hrest hv

theorem ParseUint_ok (s : GoString) (hne : s ≠ [])
    (hd : s.all (fun d => 48 ≤ d && d ≤ 57) = true) (hv : digitsValue s 0 < 2 ^ 64) :
    ParseUint s = .ok (digitsValue s 0) := by
  unfold ParseUint
  rw [if_neg hne]
  exact ParseUintLoop_ok s 0 hd hv

/-- A well-formed integer string whose value is in the range of an `int64` is accepted,
with its value. -/
theorem ParseInt_ok_of_wellFormed (s : GoString) (hwf : wellFormedInt s = true)
    (hlo : -(2 : Int) ^ 63 ≤ intValue s) (hhi : intValue s ≤ 2 ^ 63 - 1) :
    ParseInt s = .ok (intValue s) := by
  cases s with
  | nil => simp [wellFormedInt] at hwf
  | cons c rest =>
    by_cases hm : c = 45
    · subst hm
      simp only [wellFormedInt, intValue, if_true, true_or, or_true, Bool.and_eq_true,
        Bool.not_eq_true', List.isEmpty_eq_false] at hwf hlo hhi ⊢
      have hu := ParseUint_ok rest (by simpa using hwf.1) hwf.2 (by omega)
      simp only [ParseInt, or_true, if_true, hu]
      rw [if_neg (by simp), if_neg (by simp; omega)]
    · by_cases hp : c = 43
      · subst hp
        simp only [wellFormedInt, intValue, if_true, true_or, Bool.and_eq_true,
          Bool.not_eq_true', List.isEmpty_eq_false] at hwf hlo hhi ⊢
        simp only [show ¬ (43 : Nat) = 45 by decide, if_false, if_true] at hlo hhi ⊢
        have hu := ParseUint_ok rest (by simpa using hwf.1) hwf.2 (by omega)
        simp only [ParseInt, true_or, if_true, hu]
        rw [if_neg (by simp; omega), if_neg (by simp)]
        simp
      · simp only [wellFormedInt, intValue, hm, hp, or_self, if_false] at hwf hlo hhi ⊢
        have hu := ParseUint_ok (c :: rest) (by simp) hwf (by omega)
        simp only [ParseInt, hm, hp, or_self, if_false, hu]
        rw [if_neg (by simp; omega), if_neg (by simp)]

theorem put_error_ne_invalidKeyError (key : GoString) :
    Response.Error (str "Failed to record into ledger for produce ID: " ++ key) ≠
      invalidKeyError key := by
  intro h
  unfold invalidKeyError at h
  have h1 := List.append_cancel_right (Response.Error.inj h)
  exact absurd h1 (by decide)

/-- C14, as amended: the constraint on a key at creation is that `strconv.ParseInt` reads
it as a 64-bit integer. For a key made of an optional sign and one or more decimal digits
whose value is in the range of an `int64`, and that has no value in the ledger, and any
six field strings, `recordProduce` does not fail with the invalid-key error, and when the
put succeeds it succeeds and the record is stored under the key. -/
theorem integer_key_in_range_accepted (getOk : GetOracle) (putOk : PutOracle) (st : Ledger)
    (key product weight organic location timestamp holder : GoString)
    (hwf : wellFormedInt key = true)
    (hlo : -(2 : Int) ^ 63 ≤ intValue key) (hhi : intValue key ≤ 2 ^ 63 - 1)
    (hnew : st.get key = none) :
    (recordProduce getOk putOk st
      [key, product, weight, organic, location, timestamp, holder]).1 ≠ invalidKeyError key ∧
    (putOk key (Marshal ⟨product, weight, organic, location, timestamp, holder⟩) = true →
      recordProduce getOk putOk st
          [key, product, weight, organic, location, timestamp, holder] =
        (.Success none,
          st.put key (Marshal ⟨product, weight, organic, location, timestamp, holder⟩)) ∧
      (st.put key (Marshal ⟨product, weight, organic, location, timestamp, holder⟩)).get key =
        some (Marshal ⟨product, weight, organic, location, timestamp, holder⟩)) := by
  have hint := ParseInt_ok_of_wellFormed key hwf hlo hhi
  rw [recordProduce_fresh getOk putOk st key _ _ _ _ _ _ _ hint hnew]
  constructor
  · split_ifs
    · simp [invalidKeyError]
    · exact put_error_ne_invalidKeyError key
  · intro hput
    rw [if_pos hput]
    exact ⟨rfl, Ledger.get_put_same _ _ _⟩

/-- Witness of C14 as amended: the key `-9223372036854775808`, the least `int64`. -/
theorem integer_key_in_range_accepted_witness :
    wellFormedInt (str "-9223372036854775808") = true ∧
    -(2 : Int) ^ 63 ≤ intValue (str "-9223372036854775808") ∧
    intValue (str "-9223372036854775808") ≤ 2 ^ 63 - 1 ∧
    Ledger.empty.get (str "-9223372036854775808") = none ∧
    (recordProduce getAlways putAlways Ledger.empty [str "-9223372036854775808",
      str "Wheat", str "800.00", str "true", str "10.0,20.0", str "2020-01-01T00:00:00Z",
      str "Alice"]).1 ≠ invalidKeyError (str "-9223372036854775808") :=
  ⟨by decide, by decide, by decide, rfl,
    (integer_key_in_range_accepted getAlways putAlways Ledger.empty
      (str "-9223372036854775808") (str "Wheat") (str "800.00") (str "true")
      (str "10.0,20.0") (str "2020-01-01T00:00:00Z") (str "Alice") (by decide) (by decide)
      (by decide) rfl).1⟩

/-- C14 fails as stated: the key `9223372036854775808`, which is 2^63, is made of decimal
digits only and has no value in the empty ledger, and `recordProduce` fails with the
invalid-key error and writes nothing, because the key is out of the range of an
`int64`. -/
theorem integer_key_out_of_range_counterexample :
    wellFormedInt (str "9223372036854775808") = true ∧
    Ledger.empty.get (str "9223372036854775808") = none ∧
    recordProduce getAlways putAlways Ledger.empty [str "9223372036854775808", str "Wheat",
      str "800.00", str "true", str "10.0,20.0", str "2020-01-01T00:00:00Z", str "Alice"] =
      (invalidKeyError (str "9223372036854775808"), Ledger.empty) := by
  refine ⟨by decide, rfl, by decide⟩

/-! ## The decoder returns valid UTF-8 -/

theorem ValidLoop_mono (n : Nat) : ∀ (s : GoString) (m : Nat), n ≤ m →
    ValidLoop n s = true → ValidLoop m s = true := by
  induction n with
  | zero =>
    intro s m _ h
    have hs : s = [] := by simpa [ValidLoop] using h
    subst hs
    cases m <;> simp [ValidLoop]
  | succ n ih =>
    intro s m hm h
    obtain ⟨m, rfl⟩ : ∃ k, m = k + 1 := ⟨m - 1, by omega⟩
    rcases s with _ | ⟨b, t⟩
    · simp [ValidLoop]
    · by_cases hb : b < 0x80
      · simp only [ValidLoop, hb, if_true] at h ⊢
        exact ih t m (by omega) h
      · by_cases h1 : (DecodeRune (b :: t)).2 = 1
        · simp [ValidLoop, hb, h1] at h
        · simp only [ValidLoop, hb, h1, if_false] at h ⊢
          exact ih _ m (by omega) h

theorem ValidLoop_ascii (n b : Nat) (t : GoString) (hb : b < 0x80) :
    ValidLoop (n + 1) (b :: t) = ValidLoop n t := by
  simp only [ValidLoop, hb, if_true]

theorem ValidLoop_rune (n b size : Nat) (t : GoString) (hb : ¬ b < 0x80)
    (hsize : (DecodeRune (b :: t)).2 = size) (h1 : size ≠ 1) :
    ValidLoop (n + 1) (b :: t) = ValidLoop n ((b :: t).drop size) := by
  simp only [ValidLoop, hb, if_false, hsize, h1]

theorem WellFormedUTF8_valid (s : GoString) (h : WellFormedUTF8 s) : Valid s = true := by
  induction h with
  | nil => rfl
  | ascii b t hb _ ih =>
    unfold Valid at ih ⊢
    rw [List.length_cons, ValidLoop_ascii _ b t hb]
    exact ih
  | two b b1 t hr _ ih =>
    unfold Valid at ih ⊢
    have hb : ¬ b < 0x80 := by have := hr.1.1; omega
    rw [List.length_cons, ValidLoop_rune _ b 2 _ hb (by rw [DecodeRune_two b b1 t hr])
      (by decide)]
    exact ValidLoop_mono t.length t _ (by simp only [List.length_cons]; omega) ih
  | three b b1 b2 t hr _ ih =>
    unfold Valid at ih ⊢
    have hb : ¬ b < 0x80 := by have := hr.1.1; omega
    rw [List.length_cons, ValidLoop_rune _ b 3 _ hb (by rw [DecodeRune_three b b1 b2 t hr])
      (by decide)]
    exact ValidLoop_mono t.length t _ (by simp only [List.length_cons]; omega) ih
  | four b b1 b2 b3 t hr _ ih =>
    unfold Valid at ih ⊢
    have hb : ¬ b < 0x80 := by have := hr.1.1; omega
    rw [List.length_cons, ValidLoop_rune _ b 4 _ hb (by rw [DecodeRune_four b b1 b2 b3 t hr])
      (by decide)]
    exact ValidLoop_mono t.length t _ (by simp only [List.length_cons]; omega) ih

theorem WellFormedUTF8_EncodeRune (r : Nat) (x : GoString) (hx : WellFormedUTF8 x) :
    WellFormedUTF8 (EncodeRune r ++ x) := by
  unfold EncodeRune
  split_ifs with h1 h2 h3 h4
  · exact WellFormedUTF8.ascii r x (by omega) hx
  · refine WellFormedUTF8.two _ _ x ⟨⟨by omega, by omega⟩, ?_⟩ hx
    unfold isCont; omega
  · exact WellFormedUTF8.three 0xEF 0xBF 0xBD x
      (by unfold IsRune3 acceptLo acceptHi isCont; simp) hx
  · refine WellFormedUTF8.three _ _ _ x ⟨⟨by omega, by omega⟩, ?_, ?_, ?_⟩ hx
    · unfold acceptLo; split_ifs <;> omega
    · unfold acceptHi; split_ifs <;> omega
    · unfold isCont; omega
  · refine WellFormedUTF8.four _ _ _ _ x ⟨⟨by omega, by omega⟩, ?_, ?_, ?_, ?_⟩ hx
    · unfold acceptLo; split_ifs <;> omega
    · unfold acceptHi; split_ifs <;> omega
    · unfold isCont; omega
    · unfold isCont; omega

theorem emit_eq_some (p : GoString) (r : Option (GoString × GoString)) (x rest : GoString)
    (h : emit p r = some (x, rest)) : ∃ y, r = some (y, rest) ∧ x = p ++ y := by
  cases r with
  | none => simp [emit] at h
  | some v =>
    obtain ⟨y, r1⟩ := v
    simp only [emit, Option.map_some', Option.some.injEq, Prod.mk.injEq] at h
    exact ⟨y, by rw [h.2], h.1.symm⟩

theorem unescape_ascii (e b : Nat) (h : unescape e = some b) : b < 0x80 := by
  unfold unescape at h
  split_ifs at h with h1 <;> simp only [Option.some.injEq] at h <;> omega

theorem unquoteLoop_wellFormed (f : Nat) : ∀ (s x rest : GoString),
    unquoteLoop f s = some (x, rest) → WellFormedUTF8 x := by
  induction f with
  | zero => intro s x rest h; simp [unquoteLoop] at h
  | succ f ih =>
    intro s x rest h
    rcases s with _ | ⟨c, t⟩
    · simp [unquoteLoop] at h
    · simp only [unquoteLoop] at h
      split_ifs at h with h1 h2 h3 h4
      · simp only [Option.some.injEq, Prod.mk.injEq] at h
        rw [← h.1]; exact WellFormedUTF8.nil
      · rcases t with _ | ⟨e, t1⟩
        · simp at h
        · simp only at h
          split_ifs at h with h5
          · split at h
            · simp at h
            · split_ifs at h with h6
              · split at h
                · split_ifs at h with h7
                  · obtain ⟨y, hy, rfl⟩ := emit_eq_some _ _ _ _ h
                    exact WellFormedUTF8_EncodeRune _ y (ih _ _ _ hy)
                  · obtain ⟨y, hy, rfl⟩ := emit_eq_some _ _ _ _ h
                    exact WellFormedUTF8_EncodeRune _ y (ih _ _ _ hy)
                · obtain ⟨y, hy, rfl⟩ := emit_eq_some _ _ _ _ h
                  exact WellFormedUTF8_EncodeRune _ y (ih _ _ _ hy)
              · obtain ⟨y, hy, rfl⟩ := emit_eq_some _ _ _ _ h
                exact WellFormedUTF8_EncodeRune _ y (ih _ _ _ hy)
          · split at h
            · rename_i b hb
              obtain ⟨y, hy, rfl⟩ := emit_eq_some _ _ _ _ h
              exact WellFormedUTF8.ascii b y (unescape_ascii e b hb) (ih _ _ _ hy)
            · simp at h
      · obtain ⟨y, hy, rfl⟩ := emit_eq_some _ _ _ _ h
        exact WellFormedUTF8.ascii c y h4 (ih _ _ _ hy)
      · obtain ⟨y, hy, rfl⟩ := emit_eq_some _ _ _ _ h
        exact WellFormedUTF8_EncodeRune _ y (ih _ _ _ hy)

theorem unquote_wellFormed (s x rest : GoString) (h : unquote s = some (x, rest)) :
    WellFormedUTF8 x :=
  unquoteLoop_wellFormed _ s x rest h

theorem GoodKind_of_ne_string (k : JKind) (h : ∀ x, k ≠ .string x) : GoodKind k :=
  fun x hx => absurd hx (h x)

theorem GoodMembers_nil : GoodMembers [] := fun e he => absurd he (List.not_mem_nil e)

theorem GoodMembers_cons (key : GoString) (v : JKind) (ms : List (GoString × JKind))
    (hv : GoodKind v) (hms : GoodMembers ms) : GoodMembers ((key, v) :: ms) := by
  intro e he
  rcases List.mem_cons.1 he with rfl | he
  · exact hv
  · exact hms e he

theorem parse_wellFormed (f : Nat) :
    (∀ s k ms r, parseValue f s = some (k, ms, r) → GoodKind k ∧ GoodMembers ms) ∧
    (∀ s ms r, parseMembers f s = some (ms, r) → GoodMembers ms) := by
  induction f with
  | zero =>
    constructor
    · intro s k ms r h; simp [parseValue] at h
    · intro s ms r h; simp [parseMembers] at h
  | succ f ih =>
    obtain ⟨ihV, ihM⟩ := ih
    constructor
    · intro s k ms r h
      rcases s with _ | ⟨c, t⟩
      · simp [parseValue] at h
      · simp only [parseValue] at h
        split_ifs at h with h1 h2 h3 h4 h5 h6
        · split at h
          · simp at h
          · split_ifs at h with h7
            · simp only [Option.some.injEq, Prod.mk.injEq] at h
              obtain ⟨rfl, rfl, -⟩ := h
              exact ⟨GoodKind_of_ne_string _ (by simp), GoodMembers_nil⟩
            · obtain ⟨a, ha, hk⟩ := Option.map_eq_some'.1 h
              simp only [Prod.mk.injEq] at hk
              obtain ⟨rfl, rfl, -⟩ := hk
              exact ⟨GoodKind_of_ne_string _ (by simp), ihM _ a.1 a.2 (by rw [ha])⟩
        · split at h
          · simp at h
          · split_ifs at h with h7
            · simp only [Option.some.injEq, Prod.mk.injEq] at h
              obtain ⟨rfl, rfl, -⟩ := h
              exact ⟨GoodKind_of_ne_string _ (by simp), GoodMembers_nil⟩
            · obtain ⟨a, ha, hk⟩ := Option.map_eq_some'.1 h
              simp only [Prod.mk.injEq] at hk
              obtain ⟨rfl, rfl, -⟩ := hk
              exact ⟨GoodKind_of_ne_string _ (by simp), GoodMembers_nil⟩
        · obtain ⟨a, ha, hk⟩ := Option.map_eq_some'.1 h
          simp only [Prod.mk.injEq] at hk
          obtain ⟨rfl, rfl, -⟩ := hk
          refine ⟨?_, GoodMembers_nil⟩
          intro x hx
          have hx1 : a.1 = x := by simpa using hx
          rw [← hx1]
          exact unquote_wellFormed t a.1 a.2 (by rw [ha])
        · obtain ⟨a, ha, hk⟩ := Option.map_eq_some'.1 h
          simp only [Prod.mk.injEq] at hk
          obtain ⟨rfl, rfl, -⟩ := hk
          exact ⟨GoodKind_of_ne_string _ (by simp), GoodMembers_nil⟩
        · obtain ⟨a, ha, hk⟩ := Option.map_eq_some'.1 h
          simp only [Prod.mk.injEq] at hk
          obtain ⟨rfl, rfl, -⟩ := hk
          exact ⟨GoodKind_of_ne_string _ (by simp), GoodMembers_nil⟩
        · obtain ⟨a, ha, hk⟩ := Option.map_eq_some'.1 h
          simp only [Prod.mk.injEq] at hk
          obtain ⟨rfl, rfl, -⟩ := hk
          exact ⟨GoodKind_of_ne_string _ (by simp), GoodMembers_nil⟩
        · obtain ⟨a, ha, hk⟩ := Option.map_eq_some'.1 h
          simp only [Prod.mk.injEq] at hk
          obtain ⟨rfl, rfl, -⟩ := hk
          exact ⟨GoodKind_of_ne_string _ (by simp), GoodMembers_nil⟩
    · intro s ms r h
      rcases s with _ | ⟨c, t⟩
      · simp [parseMembers] at h
      · simp only [parseMembers] at h
        split_ifs at h with h1
        · split at h
          · simp at h
          · rename_i key r1 hkey
            split at h
            · simp at h
            · rename_i c2 r2 hc2
              split_ifs at h with h2
              · split at h
                · simp at h
                · rename_i v w r3 hv
                  have hgood := (ihV _ v w r3 hv).1
                  split at h
                  · simp at h
                  · rename_i c3 r4 hc3
                    split_ifs at h with h3 h4
                    · obtain ⟨a, ha, hk⟩ := Option.map_eq_some'.1 h
                      simp only [Prod.mk.injEq] at hk
                      obtain ⟨rfl, -⟩ := hk
                      exact GoodMembers_cons key v a.1 hgood (ihM _ a.1 a.2 (by rw [ha]))
                    · simp only [Option.some.injEq, Prod.mk.injEq] at h
                      obtain ⟨rfl, -⟩ := h
                      exact GoodMembers_cons key v [] hgood GoodMembers_nil

theorem setField_good (v : Produce) (i : Nat) (x : GoString) (hv : GoodProduce v)
    (hx : WellFormedUTF8 x) : GoodProduce (setField v i x) := by
  obtain ⟨h1, h2, h3, h4, h5, h6⟩ := hv
  unfold setField
  split
  · exact ⟨hx, h2, h3, h4, h5, h6⟩
  · exact ⟨h1, hx, h3, h4, h5, h6⟩
  · exact ⟨h1, h2, hx, h4, h5, h6⟩
  · exact ⟨h1, h2, h3, hx, h5, h6⟩
  · exact ⟨h1, h2, h3, h4, hx, h6⟩
  · exact ⟨h1, h2, h3, h4, h5, hx⟩

theorem decodeMembers_good (ms : List (GoString × JKind)) : ∀ (v : Produce)
    (err : Option UnmarshalError), GoodMembers ms → GoodProduce v →
    GoodProduce (decodeMembers ms (v, err)).1 := by
  induction ms with
  | nil => intro v err _ hv; exact hv
  | cons m ms ih =>
    intro v err hms hv
    obtain ⟨key, val⟩ := m
    have hval : GoodKind val := hms (key, val) (List.mem_cons_self _ _)
    have hrest : GoodMembers ms := fun e he => hms e (List.mem_cons_of_mem _ he)
    unfold decodeMembers
    split
    · exact ih _ _ hrest hv
    · split
      · rename_i x
        exact ih _ _ hrest (setField_good v _ x hv (hval x rfl))
      · exact ih _ _ hrest hv
      · exact ih _ _ hrest hv

/-- Whatever the input, the fields that `json.Unmarshal` leaves in a target whose fields
were valid UTF-8 are valid UTF-8. -/
theorem Unmarshal_good (data : GoString) (v : Produce) (hv : GoodProduce v) :
    GoodProduce (Unmarshal data v).1 := by
  unfold Unmarshal
  split
  · exact hv
  · rename_i kind members rest hparse
    split_ifs
    · split
      · exact decodeMembers_good members v none
          ((parse_wellFormed _).1 _ _ _ _ hparse).2 hv
      · exact hv
      · exact hv
    · exact hv

theorem zeroProduce_good : GoodProduce zeroProduce :=
  ⟨.nil, .nil, .nil, .nil, .nil, .nil⟩

theorem ToValidUTF8_wellFormed (x : GoString) (h : WellFormedUTF8 x) : ToValidUTF8 x = x :=
  ToValidUTF8_valid x (WellFormedUTF8_valid x h)

/-! ## Claims on the fields of a record -/

theorem holdsRecord_of_get_eq (st st1 : Ledger) (key : GoString) (R : Produce)
    (h : holdsRecord st key R) (hget : st1.get key = st.get key) :
    ∃ R1, holdsRecord st1 key R1 ∧ sameFrame R R1 := by
  obtain ⟨bytes, h1, h2⟩ := h
  exact ⟨R, ⟨bytes, hget.trans h1, h2⟩, rfl, rfl, rfl, rfl, rfl⟩

/-- C13, as amended: the fields other than the holder are immutable after creation, but
for `initLedger` on the keys `"1"` to `"5"` and for a `recordProduce` whose read of the key
fails. For a key that holds a record `R` and any command with any arguments, when the
command is not `initLedger` or the key is none of `"1"` to `"5"`, and the command is not
`recordProduce` or its read of the key succeeds, the key holds after `Invoke` a record with
the product, weight, organic, location and timestamp of `R`. -/
theorem frame_immutable_after_creation (getOk : GetOracle) (putOk : PutOracle) (st : Ledger)
    (function : GoString) (args : List GoString) (key : GoString) (R : Produce)
    (h : holdsRecord st key R)
    (hinit : function = str "initLedger" →
      key ∉ [str "1", str "2", str "3", str "4", str "5"])
    (hread : function = str "recordProduce" → getOk key = true) :
    ∃ R1, holdsRecord (Invoke getOk putOk st function args).2 key R1 ∧ sameFrame R R1 := by
  have hsome : st.get key ≠ none := by
    obtain ⟨bytes, h1, -⟩ := h
    rw [h1]; simp
  rcases Invoke_cases getOk putOk st function args with ⟨-, h1⟩ | ⟨hf, h1⟩ | ⟨hf, h1⟩ |
    ⟨-, h1⟩ | ⟨-, h1⟩ | ⟨-, h1⟩
  · rw [h1, queryProduce_unchanged]
    exact holdsRecord_of_get_eq st st key R h rfl
  · rw [h1, initLedger_eq]
    apply holdsRecord_of_get_eq st _ key R h
    apply get_putAll_other
    intro e he hke
    exact hinit hf (hke ▸ seedEntries_keys e (List.mem_filter.1 he).1)
  · rw [h1]
    rcases recordProduce_cases getOk putOk st args with ⟨msg, h2⟩ | ⟨n, -, -, h3, h2⟩
    · rw [h2]
      exact holdsRecord_of_get_eq st st key R h rfl
    · rw [h2]
      apply holdsRecord_of_get_eq st _ key R h
      apply Ledger.get_put_other
      intro hk
      rw [← hk, GetState_ok getOk st key (hread hf)] at h3
      exact hsome h3
  · rw [h1]
    exact holdsRecord_of_get_eq st st key R h rfl
  · rw [h1]
    rcases changeProduceHolder_cases getOk putOk st args with ⟨msg, h2⟩ |
      ⟨bytes0, -, -, h3, h2⟩
    · rw [h2]
      exact holdsRecord_of_get_eq st st key R h rfl
    · rw [h2]
      by_cases hk : key = args.getD 0 []
      · obtain ⟨bytes, h4, h5⟩ := h
        have hb : bytes0 = bytes := by
          rw [← hk, h4] at h3
          exact (Option.some.inj h3).symm
        have hgood : GoodProduce R := by
          have := Unmarshal_good bytes zeroProduce zeroProduce_good
          rwa [h5] at this
        obtain ⟨g1, g2, g3, g4, g5, -⟩ := hgood
        rw [hb, h5, ← hk]
        refine ⟨_, ⟨_, Ledger.get_put_same _ _ _, Unmarshal_Marshal _ _⟩, ?_⟩
        exact ⟨ToValidUTF8_wellFormed _ g1, ToValidUTF8_wellFormed _ g2,
          ToValidUTF8_wellFormed _ g3, ToValidUTF8_wellFormed _ g4,
          ToValidUTF8_wellFormed _ g5⟩
      · exact holdsRecord_of_get_eq st _ key R h (Ledger.get_put_other _ _ _ _ hk)
  · rw [h1]
    exact holdsRecord_of_get_eq st st key R h rfl

/-- Witness of C13 as amended: the key `"6"` holds the wheat record, which goes to Bob. -/
theorem frame_immutable_after_creation_witness :
    holdsRecord wheatLedger (str "6") wheat ∧
    (str "changeProduceHolder" = str "initLedger" →
      str "6" ∉ [str "1", str "2", str "3", str "4", str "5"]) ∧
    (str "changeProduceHolder" = str "recordProduce" → getAlways (str "6") = true) ∧
    ∃ R1, holdsRecord (Invoke getAlways putAlways wheatLedger
      (str "changeProduceHolder") [str "6", str "Bob"]).2 (str "6") R1 ∧ sameFrame wheat R1 :=
  ⟨⟨Marshal wheat, wheatLedger_get, by
      rw [Unmarshal_Marshal, toValid_of_valid wheat (by decide)]⟩,
    fun _ => by decide, fun _ => rfl,
    frame_immutable_after_creation getAlways putAlways wheatLedger
      (str "changeProduceHolder") [str "6", str "Bob"] (str "6") wheat
      ⟨Marshal wheat, wheatLedger_get, by
        rw [Unmarshal_Marshal, toValid_of_valid wheat (by decide)]⟩
      (fun _ => by decide) (fun _ => rfl)⟩

/-- C13 fails as stated, twice. After `recordProduce` of the wheat record under key `"1"`
on the empty ledger the key holds that record, and after `initLedger` it holds the first
record of the initial data, whose product is Chicken, not Wheat. And on the ledger where
key `"6"` holds the wheat record, `recordProduce` of the rice record under key `"6"`, when
its read of the key fails, leaves the rice record under the key, whose product is Rice. -/
theorem frame_overwritten_counterexample :
    Invoke getAlways putAlways Ledger.empty (str "recordProduce") [str "1", str "Wheat",
        str "800.00", str "true", str "10.0,20.0", str "2020-01-01T00:00:00Z",
        str "Alice"] =
      (.Success none, Ledger.empty.put (str "1") (Marshal wheat)) ∧
    holdsRecord (Ledger.empty.put (str "1") (Marshal wheat)) (str "1") wheat ∧
    holdsRecord (Invoke getAlways putAlways (Ledger.empty.put (str "1") (Marshal wheat))
      (str "initLedger") []).2 (str "1") chicken ∧
    chicken.Product ≠ wheat.Product ∧
    Reachable wheatLedger ∧
    holdsRecord wheatLedger (str "6") wheat ∧
    holdsRecord (Invoke getNever putAlways wheatLedger (str "recordProduce")
      [str "6", str "Rice", str "500.00", str "false", str "1.0,2.0",
        str "2021-01-01T00:00:00Z", str "Carol"]).2 (str "6") rice ∧
    rice.Product ≠ wheat.Product := by
  have hw : Unmarshal (Marshal wheat) zeroProduce = (wheat, none) := by
    rw [Unmarshal_Marshal, toValid_of_valid wheat (by decide)]
  refine ⟨by decide, ⟨_, Ledger.get_put_same _ _ _, hw⟩, ⟨Marshal chicken, ?_, ?_⟩,
    by decide, wheatLedger_reachable, ⟨_, wheatLedger_get, hw⟩, ⟨Marshal rice, ?_, ?_⟩,
    by decide⟩
  · rw [Invoke_initLedger]
    unfold initLedger
    rw [initLedgerLoop_accepted putAlways seedProduce 0 _ (fun _ _ => rfl)]
    exact putAll_seedEntries_get _ (str "1", Marshal chicken) (by rw [seedEntries_eq]; simp)
  · rw [Unmarshal_Marshal, toValid_of_valid chicken (by decide)]
  · rw [Invoke_recordProduce, recordProduce_nil getNever putAlways wheatLedger (str "6")
      _ _ _ _ _ _ 6 rfl (GetState_failed _ _ _ rfl)]
    simp only [putAlways, if_true]
    exact Ledger.get_put_same _ _ _
  · rw [Unmarshal_Marshal, toValid_of_valid rice (by decide)]

end FarmChaincode
